import Mathlib

/-!
Verification of the GitVizz graph pipeline (chunked transport, incremental
merge, traversal and health/impact analytics) against its specification.

Each component of the TypeScript source is shallow-embedded below:
pure functions become Lean functions on `List`/`String`/`ℚ`/`ℤ`, JavaScript
`Map`/`Set` objects become association lists / membership lists with the same
observable behaviour, and the two worklist loops (BFS/DFS) are written with an
explicit fuel parameter that provably exceeds the number of loop iterations,
so every definition stays structurally recursive and kernel-executable.
-/

set_option maxHeartbeats 1000000

/-! ## String helpers (JS `String.prototype.includes`, lexicographic sort)

JavaScript's `includes` is substring containment; its default `Array.sort`
on strings is lexicographic by code unit, which for the character data used
here coincides with the character-wise order below. -/

/-- Does the second list of characters start with the first? -/
def substrAt : List Char → List Char → Bool
  | [], _ => true
  | _ :: _, [] => false
  | p :: ps, h :: hs => p == h && substrAt ps hs

/-- Does the second list contain the first as a contiguous sublist? -/
def hasSubstr : List Char → List Char → Bool
  | pat, [] => pat.isEmpty
  | pat, h :: hs => substrAt pat (h :: hs) || hasSubstr pat hs

/-- JS `s.includes(pat)`. -/
def strIncludes (s pat : String) : Bool := hasSubstr pat.data s.data

/-- Character-wise lexicographic `≤` on strings (JS code-unit order). -/
def charsLeB : List Char → List Char → Bool
  | [], _ => true
  | _ :: _, [] => false
  | a :: as, b :: bs => if a == b then charsLeB as bs else decide (a < b)

def strLeB (a b : String) : Bool := charsLeB a.data b.data

/-- Insert into a sorted list of strings (used to model JS `Array.sort()`). -/
def insertSorted (x : String) : List String → List String
  | [] => [x]
  | y :: ys => if strLeB x y then x :: y :: ys else y :: insertSorted x ys

/-- JS `Array.prototype.sort()` on an array of strings produces the
lexicographically sorted permutation; insertion sort computes the same list
(the comparator is a total order, so the sorted permutation is unique). -/
def sortStrings : List String → List String
  | [] => []
  | x :: xs => insertSorted x (sortStrings xs)

/-- JS `Math.round` for the non-negative rationals appearing here:
round half away from zero, i.e. `⌊q + 1/2⌋`. -/
def jsRound (q : ℚ) : ℤ := ⌊q + 1 / 2⌋

/-- Splitting a character list at a separator (JS `String.prototype.split`
with a single-character separator). -/
def splitChars (sep : Char) : List Char → List (List Char)
  | [] => [[]]
  | c :: cs =>
    match splitChars sep cs with
    | [] => [[]]
    | h :: t => if c == sep then [] :: h :: t else (c :: h) :: t

/-- JS `s.split(sep)` for a one-character separator. -/
def jsSplit (s : String) (sep : Char) : List String :=
  (splitChars sep s.data).map (fun cs => ⟨cs⟩)

/-! ## C1 — incremental chunk merging (frontend/hooks `useStreamingGraph`,
`processChunkQueue` in src/frontend/types/code-analysis.ts, lines 205-271) -/

namespace StreamMerge

structure GraphNode where
  id : String
  name : String
  category : String
deriving DecidableEq

structure GraphEdge where
  source : String
  target : String
  relationship : Option String
deriving DecidableEq

structure GraphChunk where
  chunk_id : Int
  nodes : List GraphNode
  edges : List GraphEdge
  total_chunks : Nat
  progress : ℚ
  is_final : Bool
  metadata : Option (Nat × Nat × Nat) := none
deriving DecidableEq

/-- `StreamingGraphData`: the assembled graph.  The JS `Map` keyed by node id
is an association list in insertion order. -/
structure StreamingGraphData where
  nodes : List GraphNode
  edges : List GraphEdge
  nodeMap : List (String × GraphNode)
  isComplete : Bool
deriving DecidableEq

def hasNodeId (m : List (String × GraphNode)) (id : String) : Bool :=
  m.any (fun p => p.1 == id)

def hasEdgePair (es : List GraphEdge) (s t : String) : Bool :=
  es.any (fun e2 => e2.source == s && e2.target == t)

/-- Per-node merge step: `if (!newNodeMap.has(node.id)) { push; set }`. -/
def mergeNodeStep (g : StreamingGraphData) (n : GraphNode) : StreamingGraphData :=
  if hasNodeId g.nodeMap n.id then g
  else { g with nodes := g.nodes ++ [n], nodeMap := g.nodeMap ++ [(n.id, n)] }

/-- Per-edge merge step: push unless an edge with the same
`(source, target)` pair is already present. -/
def mergeEdgeStep (g : StreamingGraphData) (e : GraphEdge) : StreamingGraphData :=
  if hasEdgePair g.edges e.source e.target then g
  else { g with edges := g.edges ++ [e] }

/-- Merge one chunk: all its nodes, then all its edges. -/
def mergeChunk (g : StreamingGraphData) (c : GraphChunk) : StreamingGraphData :=
  let g1 := c.nodes.foldl mergeNodeStep g
  c.edges.foldl mergeEdgeStep g1

def emptyGraph : StreamingGraphData := ⟨[], [], [], false⟩

end StreamMerge

/-! ## C2 — chunked transport route (`POST` in the `/api/graph/stream`
route, src/unnamed/part_001, lines 42 and 104-157) -/

namespace StreamRoute

structure SNode where
  id : String
  name : String
  category : String
deriving DecidableEq

structure SEdge where
  source : String
  target : String
  relationship : Option String
deriving DecidableEq

structure Meta where
  total_nodes : Nat
  total_edges : Nat
  chunk_size : Nat
deriving DecidableEq

structure GraphChunk where
  chunk_id : Int
  nodes : List SNode
  edges : List SEdge
  total_chunks : Nat
  progress : ℚ
  is_final : Bool
  metadata : Option Meta
deriving DecidableEq

/-- `Math.min(Math.max(requestData.chunk_size || 200, 50), 500)`.
JS `||` replaces the falsy values `undefined` and `0` by the default 200. -/
def clampChunkSize (req : Option Int) : Int :=
  let raw : Int := match req with
    | none => 200
    | some v => if v = 0 then 200 else v
  min (max raw 50) 500

/-- `Math.ceil(n / s)` for natural `n`, `s` with `s > 0`. -/
def jsCeilDiv (n s : Nat) : Nat := (n + s - 1) / s

/-- Category-priority table used by the priority sort (unknown categories
fall through to 6). -/
def categoryPriority (c : String) : Nat :=
  if c == "module" then 1
  else if c == "class" then 2
  else if c == "function" then 3
  else if c == "method" then 3
  else if c == "external_symbol" then 4
  else if c == "directory" then 5
  else 6

/-- Sort key: category priority, then name length (`a.name?.length || 999`;
names are always present in the model, and an empty name is falsy in JS,
hence the 999 fallback for it). -/
def sortKey (n : SNode) : Nat × Nat :=
  (categoryPriority n.category, if n.name.length = 0 then 999 else n.name.length)

/-- The route's priority sort (a stable sort by the comparator above).
JS engines implement a stable sort; `List.mergeSort` is stable. -/
def sortForPriority (priority : Bool) (nodes : List SNode) : List SNode :=
  if priority then
    nodes.mergeSort (fun a b => decide (sortKey a ≤ sortKey b))
  else nodes

/-- The chunk-emission loop `for (let i = 0; i < sortedNodes.length; i += chunkSize)`.
`totalN` is the full node count, `i` the loop index, `remaining` the nodes not
yet emitted (`sortedNodes.slice(i)`), and `fuel` a bound on the remaining
iterations (each iteration drops at least one node once `S ≥ 1`, so
`remaining.length` iterations always suffice). -/
def chunkLoop (allEdges : List SEdge) (totalN S : Nat) :
    Nat → Nat → List SNode → List GraphChunk
  | _, _, [] => []
  | 0, _, _ :: _ => []
  | fuel + 1, i, remaining@(_ :: _) =>
    let chunkNodes := remaining.take S
    let chunkId := i / S
    let nodeIds := chunkNodes.map (·.id)
    let chunkEdges := allEdges.filter
      (fun e => nodeIds.contains e.source || nodeIds.contains e.target)
    { chunk_id := (chunkId : Int)
      nodes := chunkNodes
      edges := chunkEdges
      total_chunks := jsCeilDiv totalN S
      progress := min ((( i + chunkNodes.length : Nat) : ℚ) / (totalN : ℚ)) 1
      is_final := decide (totalN ≤ i + S)
      metadata := none } :: chunkLoop allEdges totalN S fuel (i + S) (remaining.drop S)

/-- The data chunks emitted for a (sorted) node list. -/
def dataChunks (nodes : List SNode) (edges : List SEdge) (S : Nat) : List GraphChunk :=
  chunkLoop edges nodes.length S nodes.length 0 nodes

/-- The metadata preamble sent when `include_metadata` is requested. -/
def metaChunk (nodes : List SNode) (edges : List SEdge) (S : Nat) : GraphChunk :=
  { chunk_id := -1
    nodes := []
    edges := []
    total_chunks := jsCeilDiv nodes.length S
    progress := 0
    is_final := false
    metadata := some ⟨nodes.length, edges.length, S⟩ }

/-- Full chunk sequence produced by the route body (before the terminal
`{"type":"complete"}` frame): optional metadata preamble, then data chunks
over the (optionally priority-sorted) node list. -/
def streamOutput (includeMeta priority : Bool) (nodes : List SNode)
    (edges : List SEdge) (S : Nat) : List GraphChunk :=
  let sorted := sortForPriority priority nodes
  (if includeMeta then [metaChunk nodes edges S] else []) ++ dataChunks sorted edges S

/-- The clamped chunk size as the natural number used for slicing. -/
def clampedSizeNat (req : Option Int) : Nat := (clampChunkSize req).toNat

end StreamRoute

/-! ## C3 — undirected breadth-first traversal
(`getConnectedNodes` in src/frontend/hooks/useOptimizedGraph.ts, lines 123-179) -/

namespace ConnectedNodes

structure GNode where
  id : String
  name : String
  file : String
  category : String
deriving DecidableEq

structure GEdge where
  source : String
  target : String
  relationship : Option String
deriving DecidableEq

/-- `outgoingEdges.get(id)`: the edges with this source, in edge-list order
(exactly how the adjacency map is populated). -/
def outgoingOf (edges : List GEdge) (id : String) : List GEdge :=
  edges.filter (fun e => e.source == id)

/-- `incomingEdges.get(id)`. -/
def incomingOf (edges : List GEdge) (id : String) : List GEdge :=
  edges.filter (fun e => e.target == id)

/-- Every id the BFS worklist can ever contain: the origin plus all edge
endpoints. -/
def allIds (edges : List GEdge) (origin : String) : List String :=
  origin :: edges.flatMap (fun e => [e.source, e.target])

/-- The result triple of `getConnectedNodes` plus the internal visited set. -/
structure BfsResult where
  visited : List String
  connectedNodeIds : List String
  connectionPaths : List (String × List String)
  connectionDepths : List (String × Nat)
deriving DecidableEq

/-- One queue entry `{id, depth, path}`. -/
abbrev QEntry := String × Nat × List String

/-- The body of `visited.add(id)` plus the three `if (id !== nodeId)`
record updates performed when a fresh id is popped. -/
def visitState (nodeId : String) (st : BfsResult) (id : String) (depth : Nat)
    (path : List String) : BfsResult :=
  { visited := id :: st.visited
    connectedNodeIds :=
      if id = nodeId then st.connectedNodeIds else st.connectedNodeIds ++ [id]
    connectionPaths :=
      if id = nodeId then st.connectionPaths else st.connectionPaths ++ [(id, path)]
    connectionDepths :=
      if id = nodeId then st.connectionDepths else st.connectionDepths ++ [(id, depth)] }

/-- The entries pushed for a freshly visited id when `depth < maxDepth`:
unvisited outgoing targets, then unvisited incoming sources (`st1` is the
state after `visited.add(id)`, exactly as in the source). -/
def pushedEntries (edges : List GEdge) (st1 : BfsResult) (id : String) (depth : Nat)
    (path : List String) : List QEntry :=
  ((outgoingOf edges id).filter (fun e => !(st1.visited.contains e.target))).map
      (fun e => (e.target, depth + 1, path ++ [e.relationship.getD "connected"]))
    ++ ((incomingOf edges id).filter (fun e => !(st1.visited.contains e.source))).map
      (fun e => (e.source, depth + 1,
        path ++ [(e.relationship.getD "connected") ++ " (reverse)"]))

/-- The BFS worklist loop.  `fuel` bounds the number of iterations: every
iteration pops one entry, and entries are only ever pushed while visiting a
fresh id out of `allIds`, so
`(allIds …).length * (2*edges.length + 1) + 1` iterations always suffice
(proved as part of the correctness argument below). -/
def bfsAux (edges : List GEdge) (nodeId : String) (maxDepth : Nat) :
    Nat → BfsResult → List QEntry → BfsResult
  | _, st, [] => st
  | 0, st, _ :: _ => st
  | fuel + 1, st, (id, depth, path) :: rest =>
    if id ∈ st.visited ∨ maxDepth < depth then
      bfsAux edges nodeId maxDepth fuel st rest
    else
      bfsAux edges nodeId maxDepth fuel (visitState nodeId st id depth path)
        (if depth < maxDepth then
          rest ++ pushedEntries edges (visitState nodeId st id depth path) id depth path
        else rest)

/-- Iteration bound for the loop. -/
def bfsFuel (edges : List GEdge) (nodeId : String) : Nat :=
  (allIds edges nodeId).length * (2 * edges.length + 1) + 1

/-- `getConnectedNodes(nodeId, maxDepth)`. -/
def getConnectedNodes (edges : List GEdge) (nodeId : String) (maxDepth : Nat) : BfsResult :=
  bfsAux edges nodeId maxDepth (bfsFuel edges nodeId) ⟨[], [], [], []⟩ [(nodeId, 0, [])]

/-- One hop along an edge in either direction ("the union of outgoing and
incoming adjacency"). -/
def undirStep (edges : List GEdge) (a b : String) : Prop :=
  ∃ e ∈ edges, (e.source = a ∧ e.target = b) ∨ (e.target = a ∧ e.source = b)

/-- Reachability from the origin ignoring edge direction. -/
def reaches (edges : List GEdge) (origin w : String) : Prop :=
  Relation.ReflTransGen (undirStep edges) origin w

/-- The finite set of ids the worklist can ever mention. -/
def idsF (edges : List GEdge) (nodeId : String) : Finset String :=
  (allIds edges nodeId).toFinset

/-- The loop invariant of `bfsAux`, carried from state to state. -/
structure Inv (edges : List GEdge) (nodeId : String) (st : BfsResult)
    (queue : List QEntry) : Prop where
  nodup : st.visited.Nodup
  vis_ids : ∀ w ∈ st.visited, w ∈ idsF edges nodeId
  q_ids : ∀ q ∈ queue, q.1 ∈ idsF edges nodeId
  q_depth : ∀ q ∈ queue, q.2.1 ≤ st.visited.length + 1
  vis_reach : ∀ w ∈ st.visited, reaches edges nodeId w
  q_reach : ∀ q ∈ queue, reaches edges nodeId q.1
  closure : ∀ u ∈ st.visited, ∀ v, undirStep edges u v →
    v ∈ st.visited ∨ ∃ q ∈ queue, q.1 = v
  origin : nodeId ∈ st.visited ∨ ∃ q ∈ queue, q.1 = nodeId
  conn : ∀ w, w ∈ st.connectedNodeIds ↔ (w ∈ st.visited ∧ w ≠ nodeId)

/-- What holds of the final state when the loop is run with enough fuel. -/
structure Post (edges : List GEdge) (nodeId : String) (st fin : BfsResult) : Prop where
  mono : ∀ w ∈ st.visited, w ∈ fin.visited
  sound : ∀ w ∈ fin.visited, reaches edges nodeId w
  closed : ∀ u ∈ fin.visited, ∀ v, undirStep edges u v → v ∈ fin.visited
  origin : nodeId ∈ fin.visited
  conn : ∀ w, w ∈ fin.connectedNodeIds ↔ (w ∈ fin.visited ∧ w ≠ nodeId)

end ConnectedNodes

/-! ## C4 / C5 — dead-code and health analysis
(src/frontend/utils/dead-code-analyzer.ts) -/

/-- Lowercasing a string character-wise (JS `toLowerCase` for the ASCII data
handled here). -/
def strLower (s : String) : String := ⟨s.data.map Char.toLower⟩

/-- The levenshtein matrix recurrence
`matrix[j][i] = min(del+1, ins+1, sub+indicator)` from the analyzer,
expressed as structural recursion on the two character lists. -/
def levDistance : List Char → List Char → Nat
  | [], bs => bs.length
  | a :: as, [] => (a :: as).length
  | a :: as, b :: bs =>
    min (levDistance (a :: as) bs + 1)
      (min (levDistance as (b :: bs) + 1)
        (levDistance as bs + (if a == b then 0 else 1)))
  termination_by as bs => (as.length, bs.length)

namespace DeadCode

structure CodeReference where
  id : String
  name : String
  file : String
  code : String
  category : String
  start_line : Option Nat := none
  end_line : Option Nat := none
deriving DecidableEq

structure GraphEdge where
  source : String
  target : String
  relationship : Option String
deriving DecidableEq

structure GraphData where
  nodes : List CodeReference
  edges : List GraphEdge
deriving DecidableEq

inductive DeadType
  | unused_function
  | unreachable_code
  | unused_import
  | orphaned_module
deriving DecidableEq

structure DeadCodeResult where
  type : DeadType
  node : CodeReference
  reason : String
  confidence : ℚ
  suggestions : List String
deriving DecidableEq

inductive Severity
  | low
  | medium
  | high
deriving DecidableEq

structure CyclicDependency where
  path : List String
  nodes : List CodeReference
  severity : Severity
  description : String
deriving DecidableEq

/-- `edge.relationship?.toLowerCase() || ''`. -/
def relLower (e : GraphEdge) : String := strLower (e.relationship.getD "")

/-- `edge.relationship?.includes(pat)` (no lowercasing; an absent
relationship short-circuits to false). -/
def relIncludesRaw (e : GraphEdge) (pat : String) : Bool :=
  match e.relationship with
  | some r => strIncludes r pat
  | none => false

/-- `findEntryPoints`: conventionally named nodes, nodes in entry files,
exported nodes; falling back to all modules when nothing matches. -/
def findEntryPoints (g : GraphData) : List String :=
  let entryPoints := g.nodes.foldl
    (fun acc node =>
      let name := strLower node.name
      let file := strLower node.file
      let acc := if name == "main" || name == "index" || name == "app" then
          acc ++ [node.id] else acc
      let acc := if strIncludes file "main." || strIncludes file "index." ||
          strIncludes file "app." || strIncludes file "entry." then
          acc ++ [node.id] else acc
      let isExported := g.edges.any
        (fun e => e.source == node.id && relIncludesRaw e "export")
      if isExported then acc ++ [node.id] else acc)
    []
  if entryPoints.isEmpty then
    (g.nodes.filter (fun n => n.category == "module")).map (·.id)
  else entryPoints

/-- `calculateUnusedConfidence`. -/
def calculateUnusedConfidence (node : CodeReference) : ℚ :=
  let confidence : ℚ := 9 / 10
  let confidence := if node.code != "" && node.code.length < 50 then
      confidence - 2 / 10 else confidence
  let genericNames := ["utils", "helper", "utility", "common", "shared"]
  let confidence := if genericNames.any (fun name => strIncludes (strLower node.name) name) then
      confidence - 3 / 10 else confidence
  let confidence := if node.code != "" && node.code.length > 200 then
      confidence + 1 / 10 else confidence
  max (1 / 10) (min 1 confidence)

/-- `generateUnusedFunctionSuggestions`. -/
def generateUnusedFunctionSuggestions (node : CodeReference) (g : GraphData) : List String :=
  let suggestions := ["Consider removing this unused function"]
  let utilityKeywords := ["util", "helper", "common", "shared"]
  let suggestions := if utilityKeywords.any (fun keyword =>
      strIncludes (strLower node.name) keyword || strIncludes (strLower node.file) keyword) then
      suggestions ++ ["This might be a utility function - verify it\x27s truly unused"]
    else suggestions
  let similarFunctions := g.nodes.filter (fun n =>
    n.id != node.id && n.category == "function" &&
      decide (levDistance (strLower n.name).data (strLower node.name).data ≤ 2))
  if similarFunctions.length > 0 then
    suggestions ++ ["Check if this should be called instead of similar functions"]
  else suggestions

/-- `detectUnusedFunctions`. -/
def detectUnusedFunctions (g : GraphData) : List DeadCodeResult :=
  let calledFunctions := g.edges.foldl
    (fun acc e =>
      let rel := relLower e
      if strIncludes rel "call" || strIncludes rel "invoke" then acc ++ [e.target] else acc)
    []
  let exportedFunctions := g.edges.foldl
    (fun acc e => if strIncludes (relLower e) "export" then acc ++ [e.source] else acc) []
  let importedFunctions := g.edges.foldl
    (fun acc e => if strIncludes (relLower e) "import" then acc ++ [e.target] else acc) []
  let calledFunctions := calledFunctions ++ findEntryPoints g
  (g.nodes.filter (fun node =>
      if node.category != "function" && node.category != "method" then false
      else
        !(calledFunctions.contains node.id || exportedFunctions.contains node.id ||
          importedFunctions.contains node.id))).map
    (fun node =>
      { type := .unused_function
        node := node
        reason := "Function \x27" ++ node.name ++ "\x27 is never called and not exported"
        confidence := calculateUnusedConfidence node
        suggestions := generateUnusedFunctionSuggestions node g })

/-- Worklist loop of `findUnreachableCode` (forward BFS over outgoing edges).
`fuel` bounds the iteration count; the chosen bound in `findUnreachableCode`
exceeds the total number of queue pops. -/
def reachAux (edges : List GraphEdge) : Nat → List String → List String → List String
  | _, seen, [] => seen
  | 0, seen, _ :: _ => seen
  | fuel + 1, seen, cur :: rest =>
    if seen.contains cur then reachAux edges fuel seen rest
    else
      let seen1 := seen ++ [cur]
      let pushes := ((edges.filter (fun e => e.source == cur)).filter
        (fun e => !(seen1.contains e.target))).map (·.target)
      reachAux edges fuel seen1 (rest ++ pushes)

/-- `findUnreachableCode`. -/
def findUnreachableCode (g : GraphData) : List DeadCodeResult :=
  let entryPoints := findEntryPoints g
  let fuel := (g.edges.length + 1) * (entryPoints.length + g.edges.length + 1) + 1
  let reachableNodes := reachAux g.edges fuel [] entryPoints
  ((g.nodes.filter (fun node => !(reachableNodes.contains node.id))).filter
      (fun node => node.category != "external_symbol")).map
    (fun node =>
      { type := .unreachable_code
        node := node
        reason := "Code is not reachable from any entry point"
        confidence := 8 / 10
        suggestions :=
          ["Consider removing this code if it\x27s truly unused",
           "Check if this should be exported or called from somewhere",
           "Verify if this is a utility function that should be accessible"] })

/-- `detectUnusedImports`.  The `importedSymbols` JS `Map` is an association
list in key-insertion order (re-`set`ting an existing key stores the same
node again, so it is modelled as a no-op). -/
def detectUnusedImports (g : GraphData) : List DeadCodeResult :=
  let importedSymbols := g.edges.foldl
    (fun acc e =>
      if relIncludesRaw e "import" then
        match g.nodes.find? (fun n => n.id == e.target) with
        | some targetNode =>
          if acc.any (fun p => p.1 == e.target) then acc else acc ++ [(e.target, targetNode)]
        | none => acc
      else acc)
    ([] : List (String × CodeReference))
  let usedSymbols := g.edges.foldl
    (fun acc e =>
      if relIncludesRaw e "call" || relIncludesRaw e "reference" then acc ++ [e.target] else acc)
    []
  let usedSymbols := g.nodes.foldl
    (fun acc node =>
      if node.code != "" then
        importedSymbols.foldl
          (fun acc2 p => if strIncludes node.code p.2.name then acc2 ++ [p.1] else acc2) acc
      else acc)
    usedSymbols
  (importedSymbols.filter (fun p => !(usedSymbols.contains p.1))).map
    (fun p =>
      { type := .unused_import
        node := p.2
        reason := "Import \x27" ++ p.2.name ++ "\x27 is never used"
        confidence := 9 / 10
        suggestions :=
          ["Remove this unused import statement",
           "Check if the import name is correct",
           "Verify if the imported symbol should be used somewhere"] })

/-- `findOrphanedModules`. -/
def findOrphanedModules (g : GraphData) : List DeadCodeResult :=
  let referencedModules := g.edges.foldl
    (fun acc e =>
      if relIncludesRaw e "import" || relIncludesRaw e "require" then
        match g.nodes.find? (fun n => n.id == e.target) with
        | some targetNode => if targetNode.category == "module" then acc ++ [e.target] else acc
        | none => acc
      else acc)
    []
  let entryModules := (g.nodes.filter (fun n => n.category == "module")).foldl
    (fun acc m =>
      let fileName := strLower ((jsSplit m.file '/').getLastD "")
      if strIncludes fileName "main" || strIncludes fileName "index" ||
          strIncludes fileName "app" || strIncludes fileName "entry" then
        acc ++ [m.id]
      else acc)
    []
  ((g.nodes.filter (fun n => n.category == "module")).filter
      (fun n => !(referencedModules.contains n.id) && !(entryModules.contains n.id))).map
    (fun node =>
      { type := .orphaned_module
        node := node
        reason := "Module \x27" ++ node.name ++ "\x27 is not imported or referenced anywhere"
        confidence := 7 / 10
        suggestions :=
          ["Consider removing this module if it\x27s truly unused",
           "Check if this module should be imported somewhere",
           "Verify if this is a standalone utility module"] })

/-- `calculateCycleSeverity`. -/
def calculateCycleSeverity (nodes : List CodeReference) : Severity :=
  if nodes.length ≤ 2 then .low
  else if nodes.length ≤ 4 then .medium
  else .high

/-- `generateCycleDescription`. -/
def generateCycleDescription (nodes : List CodeReference) : String :=
  "Circular dependency: " ++ String.intercalate " → " (nodes.map (·.name))

/-- Which relationships count for cycle detection. -/
def cycleRelOk (e : GraphEdge) : Bool :=
  let relationship := relLower e
  strIncludes relationship "import" || strIncludes relationship "depend" ||
    strIncludes relationship "call"

/-- Shared mutable state of `detectCyclicDependencies`. -/
structure CycState where
  visited : List String
  visitedCycles : List String
  cycles : List CyclicDependency
deriving DecidableEq

/-- The cycle-recording branch of the DFS.  Note that JS `Array.sort` sorts
`cyclePath` in place, so the recorded `path` (and the node list the severity
is computed from) is the *sorted* id list, which still contains the
cycle-closing id twice. -/
def recordCycle (g : GraphData) (st : CycState) (nodeId : String) (path : List String) :
    CycState :=
  if path.contains nodeId then
    let cycleStart := path.indexOf nodeId
    let cyclePath := path.drop cycleStart ++ [nodeId]
    let sortedPath := sortStrings cyclePath
    let cycleKey := String.intercalate "->" sortedPath
    if st.visitedCycles.contains cycleKey then st
    else
      let st1 := { st with visitedCycles := st.visitedCycles ++ [cycleKey] }
      let cycleNodes := sortedPath.filterMap (fun id => g.nodes.find? (fun n => n.id == id))
      if cycleNodes.length > 1 then
        { st1 with cycles := st1.cycles ++
            [{ path := sortedPath
               nodes := cycleNodes
               severity := calculateCycleSeverity cycleNodes
               description := generateCycleDescription cycleNodes }] }
      else st1
  else st

/-- The DFS of `detectCyclicDependencies`.  The mutable `recursionStack`
always holds exactly the ids on the current call path, so the membership
test on `path` models `recursionStack.has(nodeId)`.  `fuel` bounds the
recursion depth; every nested call first marks a fresh id visited, so the
depth never exceeds the number of distinct ids plus two. -/
def cycDfs (g : GraphData) : Nat → String → List String → CycState → CycState
  | 0, _, _, st => st
  | fuel + 1, nodeId, path, st =>
    if path.contains nodeId then recordCycle g st nodeId path
    else if st.visited.contains nodeId then st
    else
      let st1 := { st with visited := st.visited ++ [nodeId] }
      (g.edges.filter (fun e => e.source == nodeId)).foldl
        (fun acc e =>
          if cycleRelOk e then cycDfs g fuel e.target (path ++ [nodeId]) acc else acc)
        st1

/-- `detectCyclicDependencies`. -/
def detectCyclicDependencies (g : GraphData) : List CyclicDependency :=
  let fuel := g.nodes.length + g.edges.length + 2
  (g.nodes.foldl
      (fun st node => if st.visited.contains node.id then st else cycDfs g fuel node.id [] st)
      (⟨[], [], []⟩ : CycState)).cycles

/-- `calculateComplexityScore`. -/
def calculateComplexityScore (g : GraphData) : ℤ :=
  let totalNodes := g.nodes.length
  let totalEdges := g.edges.length
  if totalNodes = 0 then 0
  else
    let avgConnections : ℚ := (totalEdges : ℚ) / (totalNodes : ℚ)
    min 100 (jsRound (avgConnections * 10))

/-- `calculateCodeQualityScore`. -/
def calculateCodeQualityScore (totalNodes totalIssues cyclicDependencies : Nat)
    (complexityScore : ℤ) : ℤ :=
  if totalNodes = 0 then 100
  else
    let score : ℚ := 100
    let issueRatio : ℚ := (totalIssues : ℚ) / (totalNodes : ℚ)
    let score := score - issueRatio * 50
    let score := score - (cyclicDependencies : ℚ) * 5
    let score := score - max 0 ((complexityScore : ℚ) - 50) * (1 / 2)
    max 0 (min 100 (jsRound score))

structure CodeHealthMetrics where
  deadCode : List DeadCodeResult
  cyclicDependencies : List CyclicDependency
  unusedImports : List DeadCodeResult
  complexityScore : ℤ
  codeQualityScore : ℤ
  totalIssues : Nat
deriving DecidableEq

/-- `analyzeCodeHealth`. -/
def analyzeCodeHealth (g : GraphData) : CodeHealthMetrics :=
  let deadCode := detectUnusedFunctions g
  let unreachableCode := findUnreachableCode g
  let unusedImports := detectUnusedImports g
  let orphanedModules := findOrphanedModules g
  let cyclicDependencies := detectCyclicDependencies g
  let allDeadCode := deadCode ++ unreachableCode ++ orphanedModules
  let complexityScore := calculateComplexityScore g
  let totalIssues := allDeadCode.length + cyclicDependencies.length + unusedImports.length
  let codeQualityScore := calculateCodeQualityScore g.nodes.length totalIssues
    cyclicDependencies.length complexityScore
  { deadCode := allDeadCode
    cyclicDependencies := cyclicDependencies
    unusedImports := unusedImports
    complexityScore := complexityScore
    codeQualityScore := codeQualityScore
    totalIssues := totalIssues }

end DeadCode

/-! ## C6 — impact analysis (`analyzeNodeImpact` in src/unnamed/part_002,
lines 138-245; operates on the same `CodeReference`/`GraphData` types) -/

namespace Impact

open DeadCode (CodeReference GraphEdge GraphData relLower)

/-- Total incident edge count of a node (`edge.source === id || edge.target === id`). -/
def connectionCountOf (g : GraphData) (id : String) : Nat :=
  (g.edges.filter (fun e => e.source == id || e.target == id)).length

/-- Direct dependents: sources of edges targeting the node, deduplicated by
id in edge order. -/
def findDirectDependents (t : CodeReference) (g : GraphData) :
    List CodeReference × List String :=
  (g.edges.filter (fun e => e.target == t.id)).foldl
    (fun acc e =>
      match g.nodes.find? (fun n => n.id == e.source) with
      | some sourceNode =>
        if acc.2.contains sourceNode.id then acc
        else (acc.1 ++ [sourceNode], acc.2 ++ [sourceNode.id])
      | none => acc)
    ([], [])

/-- The worklist loop computing indirect dependents (BFS over "who depends
on a direct dependent").  `fuel` bounds the pops: every push marks a fresh
node id, so `direct.length + g.nodes.length + 2` iterations suffice. -/
def indirectAux (g : GraphData) :
    Nat → List CodeReference → List String → List String → List CodeReference
  | _, indirect, _, [] => indirect
  | 0, indirect, _, _ :: _ => indirect
  | fuel + 1, indirect, indirectVisited, currentId :: rest =>
    let step := (g.edges.filter (fun e => e.target == currentId)).foldl
      (fun (acc : List CodeReference × List String × List String) e =>
        match g.nodes.find? (fun n => n.id == e.source) with
        | some sourceNode =>
          if acc.2.1.contains sourceNode.id then acc
          else (acc.1 ++ [sourceNode], acc.2.1 ++ [sourceNode.id], acc.2.2 ++ [sourceNode.id])
        | none => acc)
      (indirect, indirectVisited, [])
    indirectAux g fuel step.1 step.2.1 (rest ++ step.2.2)

/-- `findDependentNodes`. -/
def findDependentNodes (t : CodeReference) (g : GraphData) :
    List CodeReference × List CodeReference :=
  let dd := findDirectDependents t g
  let fuel := dd.1.length + g.nodes.length + 2
  (dd.1, indirectAux g fuel [] dd.2 (dd.1.map (·.id)))

/-- Dependency-creating relationships for the impact analyzer's own cycle
search. -/
def depRelOk (e : GraphEdge) : Bool :=
  let relationship := relLower e
  strIncludes relationship "import" || strIncludes relationship "depend" ||
    strIncludes relationship "call"

/-- DFS of `findCircularDependencies` (part_002, lines 292-335).  As in the
health analyzer, the mutable recursion stack holds exactly the ids on the
current call path, and `fuel` bounds the recursion depth. -/
def icDfs (g : GraphData) :
    Nat → String → List String → List String × List (List String) →
      List String × List (List String)
  | 0, _, _, s => s
  | fuel + 1, nodeId, path, (visited, cycles) =>
    if path.contains nodeId then
      let cycleStart := path.indexOf nodeId
      (visited, cycles ++ [path.drop cycleStart ++ [nodeId]])
    else if visited.contains nodeId then (visited, cycles)
    else
      (g.edges.filter (fun e => e.source == nodeId)).foldl
        (fun acc e =>
          if depRelOk e then icDfs g fuel e.target (path ++ [nodeId]) acc else acc)
        (visited ++ [nodeId], cycles)

/-- `findCircularDependencies`: cycles found from the target, filtered to
those containing it. -/
def findCircularDependencies (t : CodeReference) (g : GraphData) : List (List String) :=
  let fuel := g.nodes.length + g.edges.length + 2
  ((icDfs g fuel t.id [] ([], [])).2).filter (fun cycle => cycle.contains t.id)

inductive ChangeType
  | modify
  | delete
  | refactor
deriving DecidableEq

inductive RiskLevel
  | low
  | medium
  | high
deriving DecidableEq

/-- The switch on the change type: `×1.5` for delete, `×1.2` for refactor. -/
def changeMultiplier : ChangeType → ℚ
  | .delete => 3 / 2
  | .refactor => 6 / 5
  | .modify => 1

/-- The mutable accumulator of `analyzeNodeImpact` (impacted functions,
affected-files set in insertion order, reasons, accumulated risk). -/
structure Accum where
  impactedFunctions : List CodeReference
  affectedFiles : List String
  reasons : List String
  risk : ℚ
deriving DecidableEq

def addFileIfAbsent (files : List String) (f : String) : List String :=
  if files.contains f then files else files ++ [f]

/-- Per-direct-dependent accumulation. -/
def directStep (g : GraphData) (acc : Accum) (node : CodeReference) : Accum :=
  let acc := { acc with
    impactedFunctions := acc.impactedFunctions ++ [node]
    affectedFiles := addFileIfAbsent acc.affectedFiles node.file }
  let connectionCount := connectionCountOf g node.id
  let acc := if connectionCount > 10 then
      { acc with
        risk := acc.risk + 3 / 10
        reasons := acc.reasons ++
          [node.name ++ " is highly connected (" ++ toString connectionCount ++ " connections)"] }
    else acc
  if node.category == "module" || node.category == "class" then
    { acc with
      risk := acc.risk + 4 / 10
      reasons := acc.reasons ++
        [node.name ++ " is a " ++ node.category ++ " with structural importance"] }
  else acc

/-- Per-indirect-dependent accumulation (the `+= 0.1` is unconditional). -/
def indirectStep (acc : Accum) (node : CodeReference) : Accum :=
  let acc := if acc.impactedFunctions.any (fun f => f.id == node.id) then acc
    else { acc with
      impactedFunctions := acc.impactedFunctions ++ [node]
      affectedFiles := addFileIfAbsent acc.affectedFiles node.file }
  { acc with risk := acc.risk + 1 / 10 }

def isExportedNode (t : CodeReference) (g : GraphData) : Bool :=
  g.edges.any (fun e => e.source == t.id && strIncludes (relLower e) "export")

def importCountOf (t : CodeReference) (g : GraphData) : Nat :=
  (g.edges.filter (fun e => e.target == t.id && strIncludes (relLower e) "import")).length

/-- All additive risk accumulation of `analyzeNodeImpact` before the
change-type multiplier. -/
def impactAccum (t : CodeReference) (g : GraphData) : Accum :=
  let dep := findDependentNodes t g
  let acc := dep.1.foldl (directStep g) ⟨[], [], [], 0⟩
  let acc := dep.2.foldl indirectStep acc
  let acc := if isExportedNode t g then
      { acc with
        risk := acc.risk + 5 / 10
        reasons := acc.reasons ++ [t.name ++ " is exported and may be used externally"] }
    else acc
  let importCount := importCountOf t g
  let acc := if importCount > 5 then
      { acc with
        risk := acc.risk + 2 / 10
        reasons := acc.reasons ++
          [t.name ++ " has many imports (" ++ toString importCount ++ ") that could be affected"] }
    else acc
  let circularDeps := findCircularDependencies t g
  if circularDeps.length > 0 then
    { acc with
      risk := acc.risk + 3 / 10
      reasons := acc.reasons ++
        [t.name ++ " is involved in " ++ toString circularDeps.length ++ " circular dependencies"] }
  else acc

/-- The accumulated risk after the change-type multiplier and *before* the
final cap — the value the risk level is decided on. -/
def preClampRisk (t : CodeReference) (g : GraphData) (ct : ChangeType) : ℚ :=
  (impactAccum t g).risk * changeMultiplier ct

/-- Risk contributed by one direct dependent (`+0.3` when highly connected,
`+0.4` for a module or class). -/
def directInc (g : GraphData) (d : CodeReference) : ℚ :=
  (if connectionCountOf g d.id > 10 then 3 / 10 else 0) +
    (if d.category == "module" || d.category == "class" then 4 / 10 else 0)

structure ImpactAnalysis where
  affectedFiles : List String
  impactedFunctions : List CodeReference
  riskLevel : RiskLevel
  breakingChangeRisk : ℚ
  reasons : List String
deriving DecidableEq

/-- `analyzeNodeImpact`. -/
def analyzeNodeImpact (t : CodeReference) (g : GraphData) (ct : ChangeType) :
    ImpactAnalysis :=
  let acc := impactAccum t g
  let breakingChangeRisk := acc.risk * changeMultiplier ct
  let riskLevel := if 1 ≤ breakingChangeRisk then RiskLevel.high
    else if 1 / 2 ≤ breakingChangeRisk then RiskLevel.medium
    else RiskLevel.low
  { affectedFiles := acc.affectedFiles
    impactedFunctions := acc.impactedFunctions
    riskLevel := riskLevel
    breakingChangeRisk := min breakingChangeRisk 1
    reasons := acc.reasons }

end Impact

/-! ## C7 — streaming consumer (`startStreaming` in
src/frontend/types/code-analysis.ts, lines 311-415).  The network is
abstracted to the upstream status plus the batches of decoded `data:` lines
delivered by successive reads; `JSON.parse` of a line is abstracted to a
`ParsedFrame` (malformed JSON throws, modelled by `.malformed`). -/

namespace Streaming

open StreamMerge

/-- Outcome of `JSON.parse` on the payload of one `data:` line. -/
inductive ParsedFrame
  | complete
  | errorFrame (error : Option String)
  | chunk (c : GraphChunk)
  | malformed
deriving DecidableEq

/-- One received line: either a `data: …` line or anything else (skipped). -/
inductive SSELine
  | dataLine (f : ParsedFrame)
  | otherLine
deriving DecidableEq

/-- The consumer-visible state of the hook. -/
structure HookState where
  graphData : StreamingGraphData
  progress : ℚ
  error : Option String
  isStreaming : Bool
  isLoading : Bool
  chunksReceived : Nat
  totalChunks : Nat
  estimatedTotal : Nat × Nat × Nat
deriving DecidableEq

/-- State set at the top of `startStreaming` (graph and progress reset). -/
def resetState : HookState :=
  { graphData := { nodes := [], edges := [], nodeMap := [], isComplete := false }
    progress := 0
    error := none
    isStreaming := true
    isLoading := true
    chunksReceived := 0
    totalChunks := 0
    estimatedTotal := (0, 0, 0) }

/-- `processChunk` followed by the queued merge (`processChunkQueue` drains
the queue in animation-frame batches; its net effect with auto-processing on
is to merge each queued chunk in order, which is modelled directly). -/
def processChunkModel (st : HookState) (c : GraphChunk) : HookState :=
  if c.chunk_id = -1 then
    { st with
      totalChunks := c.total_chunks
      estimatedTotal := c.metadata.getD st.estimatedTotal }
  else
    let st := { st with
      graphData := mergeChunk st.graphData c
      chunksReceived := st.chunksReceived + 1
      progress := c.progress
      totalChunks := c.total_chunks }
    if c.is_final then
      { st with
        graphData := { st.graphData with isComplete := true }
        isStreaming := false }
    else st

/-- The `for (const line of lines)` loop over one decoded read, with the
inner `try { JSON.parse(...) … } catch (parseError) { console.error(...) }`.
A malformed line only logs and continues; the `throw` raised for an explicit
`{"type":"error"}` frame is caught by that same `catch (parseError)` block,
so it too only logs and continues; a `complete` frame marks the graph
complete and `break`s out of this batch. -/
def processLines (st : HookState) : List SSELine → HookState
  | [] => st
  | line :: rest =>
    match line with
    | .otherLine => processLines st rest
    | .dataLine .malformed => processLines st rest
    | .dataLine (.errorFrame _) => processLines st rest
    | .dataLine .complete =>
      { st with
        graphData := { st.graphData with isComplete := true }
        isStreaming := false }
    | .dataLine (.chunk c) => processLines (processChunkModel st c) rest

/-- The `while (true)` read loop: each read contributes one batch of lines. -/
def processBody (st : HookState) (batches : List (List SSELine)) : HookState :=
  batches.foldl processLines st

/-- `startStreaming` given the upstream response: reset, then either the
outer catch for a non-2xx status (`throw new Error(\x60HTTP …\x60)` — it sets
the error and stops, leaving `graphData` untouched) or the read loop. -/
def startStreamingModel (ok : Bool) (status : Nat) (statusText : String)
    (batches : List (List SSELine)) : HookState :=
  let st0 := resetState
  if !ok then
    { st0 with
      error := some ("HTTP " ++ toString status ++ ": " ++ statusText)
      isLoading := false
      isStreaming := false }
  else
    processBody { st0 with isLoading := false } batches

end Streaming

/-! ## C8 — viewport culling of the virtualized renderer
(`visibleElements` in src/unnamed/part_003, lines 205-265) -/

namespace Virtualized

inductive RPrio
  | high
  | medium
  | low
deriving DecidableEq

structure VNode where
  id : String
  name : String
  category : String
  renderPriority : Option RPrio
deriving DecidableEq

structure VEdge where
  source : String
  target : String
  relationship : Option String
deriving DecidableEq

structure Viewport where
  x : ℚ
  y : ℚ
  width : ℚ
  height : ℚ
  scale : ℚ
deriving DecidableEq

/-- `NODE_SIZES`. -/
def nodeSizeOf : RPrio → ℚ
  | .high => 12
  | .medium => 8
  | .low => 6

structure RenderedNode where
  node : VNode
  posX : ℚ
  posY : ℚ
  screenX : ℚ
  screenY : ℚ
  isVisible : Bool
  renderRadius : ℚ
deriving DecidableEq

structure RenderedEdge where
  edge : VEdge
  sourcePos : ℚ × ℚ
  targetPos : ℚ × ℚ
  isVisible : Bool
deriving DecidableEq

/-- `nodePositions.get(id)`. -/
def lookupPos (positions : List (String × ℚ × ℚ)) (id : String) : Option (ℚ × ℚ) :=
  (positions.find? (fun p => p.1 == id)).map (·.2)

/-- The per-node body of the node half of `visibleElements` (skip nodes
without a position; cull to the buffered viewport; keep any highlighted or
selected node regardless of position). -/
def renderNode (positions : List (String × ℚ × ℚ)) (viewport : Viewport)
    (highlightedNodes : List String) (selectedNodeId : Option String)
    (node : VNode) : Option RenderedNode :=
  match lookupPos positions node.id with
  | none => none
  | some pos =>
    let buffer : ℚ := 50
    let screenX := (pos.1 - viewport.x) * viewport.scale
    let screenY := (pos.2 - viewport.y) * viewport.scale
    let isVisible := decide (viewport.x - buffer ≤ pos.1) &&
      decide (pos.1 ≤ viewport.x + viewport.width + buffer) &&
      decide (viewport.y - buffer ≤ pos.2) &&
      decide (pos.2 ≤ viewport.y + viewport.height + buffer)
    if isVisible || highlightedNodes.contains node.id || selectedNodeId == some node.id then
      let renderPriority := node.renderPriority.getD .low
      let baseSize := nodeSizeOf renderPriority
      let renderRadius := if highlightedNodes.contains node.id then baseSize * (3 / 2)
        else baseSize
      some { node := node, posX := pos.1, posY := pos.2, screenX := screenX,
             screenY := screenY, isVisible := isVisible, renderRadius := renderRadius }
    else none

/-- The node half of `visibleElements`. -/
def visibleNodesOf (nodes : List VNode) (positions : List (String × ℚ × ℚ))
    (viewport : Viewport) (highlightedNodes : List String)
    (selectedNodeId : Option String) : List RenderedNode :=
  nodes.filterMap (renderNode positions viewport highlightedNodes selectedNodeId)

/-- The edge half of `visibleElements` (edges touching a retained node). -/
def visibleEdgesOf (edges : List VEdge) (positions : List (String × ℚ × ℚ))
    (visibleNodes : List RenderedNode) : List RenderedEdge :=
  let visibleNodeIds := visibleNodes.map (fun r => r.node.id)
  edges.filterMap (fun edge =>
    let sourceVisible := visibleNodeIds.contains edge.source
    let targetVisible := visibleNodeIds.contains edge.target
    if sourceVisible || targetVisible then
      match lookupPos positions edge.source, lookupPos positions edge.target with
      | some sp, some tp =>
        some { edge := edge, sourcePos := sp, targetPos := tp,
               isVisible := sourceVisible && targetVisible }
      | _, _ => none
    else none)

/-- `visibleElements`. -/
def visibleElements (nodes : List VNode) (edges : List VEdge)
    (positions : List (String × ℚ × ℚ)) (viewport : Viewport)
    (highlightedNodes : List String) (selectedNodeId : Option String) :
    List RenderedNode × List RenderedEdge :=
  let visibleNodes := visibleNodesOf nodes positions viewport highlightedNodes selectedNodeId
  (visibleNodes, visibleEdgesOf edges positions visibleNodes)

end Virtualized

/-! ## C9 / C10 — web worker metrics and viewport filtering
(the worker script concatenated in src/frontend/utils/dead-code-analyzer.ts,
`calculateNodeMetrics` lines 498-578 and `filterNodesForViewport`
lines 728-745).  `Math.log` is the natural logarithm, modelled as
`Real.log`; metric records are therefore real-valued and the metric
definitions are `noncomputable`, while every integer-valued observation
(degrees, connection counts) stays executable. -/

namespace Worker

structure WNode where
  id : String
  name : String
  file : Option String := none
  x : Option ℚ := none
  y : Option ℚ := none
deriving DecidableEq

structure WEdge where
  source : String
  target : String
  relationship : Option String := none
deriving DecidableEq

/-- JS `Map.get(k)` with `|| 0` fallback. -/
def lookupNat (m : List (String × Nat)) (k : String) : Nat :=
  ((m.find? (fun p => p.1 == k)).map (·.2)).getD 0

/-- JS `Map.set(k, v)`: update in place, keeping the original insertion
position, or append a fresh entry. -/
def setAssoc {α : Type} (m : List (String × α)) (k : String) (v : α) : List (String × α) :=
  if m.any (fun p => p.1 == k) then
    m.map (fun p => if p.1 == k then (k, v) else p)
  else m ++ [(k, v)]

def lookupList (m : List (String × List String)) (k : String) : List String :=
  ((m.find? (fun p => p.1 == k)).map (·.2)).getD []

/-- `adjacencyList.get(k).add(v)` (a JS `Set` keeps first-insertion order
and ignores duplicates). -/
def addAdj (m : List (String × List String)) (k v : String) : List (String × List String) :=
  let s := lookupList m k
  setAssoc m k (if s.contains v then s else s ++ [v])

/-- One step of the `nodes.forEach` initialization loop. -/
def initStep (maps : List (String × Nat) × List (String × Nat) × List (String × List String))
    (n : WNode) :
    List (String × Nat) × List (String × Nat) × List (String × List String) :=
  (setAssoc maps.1 n.id 0, setAssoc maps.2.1 n.id 0, setAssoc maps.2.2 n.id [])

/-- `inDegreeMap/outDegreeMap/adjacencyList` after the initialization loop. -/
def initMaps (nodes : List WNode) :
    List (String × Nat) × List (String × Nat) × List (String × List String) :=
  nodes.foldl initStep ([], [], [])

/-- One step of the `edges.forEach` loop: bump the out-degree of the source,
the in-degree of the target, and record both undirected adjacencies. -/
def degreeStep (maps : List (String × Nat) × List (String × Nat) × List (String × List String))
    (e : WEdge) :
    List (String × Nat) × List (String × Nat) × List (String × List String) :=
  (setAssoc maps.1 e.target (lookupNat maps.1 e.target + 1),
    setAssoc maps.2.1 e.source (lookupNat maps.2.1 e.source + 1),
    addAdj (addAdj maps.2.2 e.source e.target) e.target e.source)

/-- The single `edges.forEach` loop of `calculateNodeMetrics` building the
in-degree map, out-degree map and undirected adjacency sets, after
initializing every node's entries to zero / empty. -/
def degreeAndAdjacency (nodes : List WNode) (edges : List WEdge) :
    List (String × Nat) × List (String × Nat) × List (String × List String) :=
  edges.foldl degreeStep (initMaps nodes)

/-- Worklist loop of `getConnectedFiles` (BFS over the undirected adjacency
up to `depthLimit` hops, collecting the files of nodes other than the
origin; an absent or empty `file` is falsy and skipped).  `fuel` bounds the
iteration count. -/
def connFilesAux (nodeMap : List (String × WNode)) (adj : List (String × List String))
    (origin : String) (depthLimit : Nat) :
    Nat → List String → List String → List (String × Nat) → List String
  | _, _, files, [] => files
  | 0, _, files, _ :: _ => files
  | fuel + 1, visited, files, (id, currentDepth) :: rest =>
    if visited.contains id || decide (depthLimit < currentDepth) then
      connFilesAux nodeMap adj origin depthLimit fuel visited files rest
    else
      let visited1 := visited ++ [id]
      let files1 :=
        match (nodeMap.find? (fun p => p.1 == id)).map (·.2) with
        | some node =>
          match node.file with
          | some f =>
            if f != "" && id != origin then
              (if files.contains f then files else files ++ [f])
            else files
          | none => files
        | none => files
      let newQueue :=
        if currentDepth < depthLimit then
          rest ++ ((lookupList adj id).filter (fun nb => !(visited1.contains nb))).map
            (fun nb => (nb, currentDepth + 1))
        else rest
      connFilesAux nodeMap adj origin depthLimit fuel visited1 files1 newQueue

/-- `getConnectedFiles(nodeId, depth)`. -/
def getConnectedFiles (nodeMap : List (String × WNode)) (adj : List (String × List String))
    (nodeId : String) (depth : Nat) : List String :=
  let idCount := nodeMap.length + adj.length + 1
  connFilesAux nodeMap adj nodeId depth (idCount * (idCount + 1) + 2) [] [] [(nodeId, 0)]

inductive WPrio
  | high
  | medium
  | low
deriving DecidableEq

structure EnhancedNode where
  node : WNode
  inDegree : Nat
  outDegree : Nat
  totalConnections : Nat
  importanceScore : ℝ
  connectedFiles : List String
  renderPriority : WPrio

/-- `new Map(nodes.map(node => [node.id, node]))` (a later duplicate id
overwrites at the original position). -/
def nodeMapOf (nodes : List WNode) : List (String × WNode) :=
  nodes.foldl (fun m n => setAssoc m n.id n) []

open Classical in
/-- The body of the `nodes.map(node => …)` at the end of
`calculateNodeMetrics`.  The degree/adjacency maps are pure functions of
`nodes` and `edges`, so recomputing them per node yields the same list as
computing them once outside the map. -/
noncomputable def enhanceNode (nodes : List WNode) (edges : List WEdge) (maxDepth : Nat)
    (node : WNode) : EnhancedNode :=
  let maps := degreeAndAdjacency nodes edges
  let inDegree := lookupNat maps.1 node.id
  let outDegree := lookupNat maps.2.1 node.id
  let totalConnections := inDegree + outDegree
  let importanceScore : ℝ := Real.log ((totalConnections : ℝ) + 1) * 10
  { node := node
    inDegree := inDegree
    outDegree := outDegree
    totalConnections := totalConnections
    importanceScore := importanceScore
    connectedFiles := getConnectedFiles (nodeMapOf nodes) maps.2.2 node.id maxDepth
    renderPriority :=
      if 15 < importanceScore then .high
      else if 5 < importanceScore then .medium
      else .low }

/-- `calculateNodeMetrics(nodes, edges, maxDepth = 3)`. -/
noncomputable def calculateNodeMetrics (nodes : List WNode) (edges : List WEdge)
    (maxDepth : Nat := 3) : List EnhancedNode :=
  nodes.map (enhanceNode nodes edges maxDepth)

structure Viewport where
  x : ℚ
  y : ℚ
  width : ℚ
  height : ℚ
  scale : ℚ
deriving DecidableEq

/-- `filterNodesForViewport(nodes, viewport, buffer = 100)`.  `!node.x`
is true for an absent coordinate and for the (falsy) coordinate `0`. -/
def filterNodesForViewport (nodes : List WNode) (viewport : Option Viewport)
    (buffer : ℚ := 100) : List WNode :=
  match viewport with
  | none => nodes
  | some vp =>
    let adjustedBuffer := buffer / vp.scale
    nodes.filter (fun node =>
      match node.x, node.y with
      | some px, some py =>
        if px == 0 || py == 0 then true
        else
          decide (vp.x - adjustedBuffer ≤ px) &&
          decide (px ≤ vp.x + vp.width + adjustedBuffer) &&
          decide (vp.y - adjustedBuffer ≤ py) &&
          decide (py ≤ vp.y + vp.height + adjustedBuffer)
      | _, _ => true)

end Worker

/-! ## Concrete inputs used by witnesses and counterexamples -/

namespace Examples

/-- C1: a one-node, one-edge graph state whose node map is in sync. -/
def exMergeNode : StreamMerge.GraphNode := ⟨"n1", "n1", "module"⟩

def exMergeEdge : StreamMerge.GraphEdge := ⟨"n1", "n2", some "calls"⟩

def exMergeState : StreamMerge.StreamingGraphData :=
  { nodes := [exMergeNode], edges := [exMergeEdge],
    nodeMap := [("n1", exMergeNode)], isComplete := false }

/-- C2: 120 identical nodes streamed with a requested chunk size of 30
(clamped up to 50), giving three data chunks. -/
def exStreamNode : StreamRoute.SNode := ⟨"n", "n", "module"⟩

def exStreamNodes : List StreamRoute.SNode := List.replicate 120 exStreamNode

def exStreamNodes1000 : List StreamRoute.SNode := List.replicate 1000 exStreamNode

/-- C3 counterexample: one node `A`, but the edge list walks on to ids `X`
and `Y` that are not nodes of the graph. -/
def exC3edges : List ConnectedNodes.GEdge :=
  [⟨"A", "X", some "calls"⟩, ⟨"X", "Y", some "calls"⟩]

def exC3nodes : List ConnectedNodes.GNode := [⟨"A", "A", "a.ts", "module"⟩]

/-- C3 witness: a well-formed three-node graph; `C` is reachable from `A`
only through the reversed edge `C → B`. -/
def exC3Wnodes : List ConnectedNodes.GNode :=
  [⟨"A", "A", "a.ts", "module"⟩, ⟨"B", "B", "b.ts", "module"⟩, ⟨"C", "C", "c.ts", "module"⟩]

def exC3Wedges : List ConnectedNodes.GEdge :=
  [⟨"A", "B", some "calls"⟩, ⟨"C", "B", some "calls"⟩]

/-- C4: the two-node cycle `A→B→A`, all edges tagged "calls". -/
def exC4nodeA : DeadCode.CodeReference :=
  { id := "A", name := "A", file := "a.ts", code := "", category := "function" }

def exC4nodeB : DeadCode.CodeReference :=
  { id := "B", name := "B", file := "b.ts", code := "", category := "function" }

def exC4nodeC : DeadCode.CodeReference :=
  { id := "C", name := "C", file := "c.ts", code := "", category := "function" }

def exC4two : DeadCode.GraphData :=
  { nodes := [exC4nodeA, exC4nodeB],
    edges := [⟨"A", "B", some "calls"⟩, ⟨"B", "A", some "calls"⟩] }

/-- C4: the three-node cycle `A→B→C→A`, all edges tagged "calls". -/
def exC4three : DeadCode.GraphData :=
  { nodes := [exC4nodeA, exC4nodeB, exC4nodeC],
    edges := [⟨"A", "B", some "calls"⟩, ⟨"B", "C", some "calls"⟩, ⟨"C", "A", some "calls"⟩] }

/-- The one cycle detected on `exC4two` (the in-place `sort` leaves the
closing `A` duplicated in the recorded path and node list). -/
def exC4cycle : DeadCode.CyclicDependency :=
  { path := ["A", "A", "B"]
    nodes := [exC4nodeA, exC4nodeA, exC4nodeB]
    severity := .medium
    description := "Circular dependency: A → A → B" }

/-- C5 counterexample (totalIssues): two modules importing each other — a
single cycle and two unused imports, nothing else. -/
def exC5 : DeadCode.GraphData :=
  { nodes :=
      [{ id := "A", name := "A", file := "a.ts", code := "", category := "module" },
       { id := "B", name := "B", file := "b.ts", code := "", category := "module" }],
    edges := [⟨"A", "B", some "imports_module"⟩, ⟨"B", "A", some "imports_module"⟩] }

/-- C5 counterexample (rounding): three modules, exactly one issue (the
orphaned module `C`), so the quality score is the non-integer `250/3`
before rounding. -/
def exC5b : DeadCode.GraphData :=
  { nodes :=
      [{ id := "A", name := "A", file := "main.ts", code := "B stuff", category := "module" },
       { id := "B", name := "B", file := "b.ts", code := "", category := "module" },
       { id := "C", name := "C", file := "c.ts", code := "", category := "module" }],
    edges := [⟨"A", "B", some "imports_module"⟩, ⟨"A", "C", some "calls"⟩] }

/-- C6 witness: an exported target `T` with 12 direct dependents, one of
which (`d1`) has 11 incident edges. -/
def exC6target : DeadCode.CodeReference :=
  { id := "T", name := "T", file := "t.ts", code := "", category := "function" }

def exC6dep (i : Nat) : DeadCode.CodeReference :=
  { id := "d" ++ toString i, name := "d" ++ toString i,
    file := "d" ++ toString i ++ ".ts", code := "", category := "function" }

def exC6aux (i : Nat) : DeadCode.CodeReference :=
  { id := "x" ++ toString i, name := "x" ++ toString i,
    file := "x" ++ toString i ++ ".ts", code := "", category := "function" }

def exC6 : DeadCode.GraphData :=
  { nodes :=
      [exC6target,
       { id := "E", name := "E", file := "e.ts", code := "", category := "module" }] ++
      ((List.range 12).map (fun i => exC6dep (i + 1))) ++
      ((List.range 10).map (fun i => exC6aux (i + 1))),
    edges :=
      ((List.range 12).map (fun i =>
        (⟨"d" ++ toString (i + 1), "T", some "calls"⟩ : DeadCode.GraphEdge))) ++
      ((List.range 10).map (fun i =>
        (⟨"d1", "x" ++ toString (i + 1), some "calls"⟩ : DeadCode.GraphEdge))) ++
      [⟨"T", "E", some "exports"⟩] }

/-- C7: two single-chunk reads with an explicit error frame in between. -/
def exC7n1 : StreamMerge.GraphNode := ⟨"n1", "n1", "module"⟩

def exC7n2 : StreamMerge.GraphNode := ⟨"n2", "n2", "module"⟩

def exC7c1 : StreamMerge.GraphChunk :=
  { chunk_id := 0, nodes := [exC7n1], edges := [], total_chunks := 2,
    progress := 1 / 2, is_final := false }

def exC7c2 : StreamMerge.GraphChunk :=
  { chunk_id := 1, nodes := [exC7n2], edges := [], total_chunks := 2,
    progress := 1, is_final := true }

def exC7batches : List (List Streaming.SSELine) :=
  [[.dataLine (.chunk exC7c1)],
   [.dataLine (.errorFrame (some "boom"))],
   [.dataLine (.chunk exC7c2)]]

def exC7batchesTrunc : List (List Streaming.SSELine) :=
  [[.dataLine (.chunk exC7c1)], [.dataLine (.errorFrame (some "boom"))]]

/-- C8 witness: a highlighted node far outside the buffered viewport. -/
def exC8node : Virtualized.VNode := ⟨"h", "h", "module", some .low⟩

def exC8positions : List (String × ℚ × ℚ) := [("h", (1000, 1000))]

def exC8viewport : Virtualized.Viewport := ⟨0, 0, 100, 100, 1⟩

/-- C9 witness input: one node with four incoming edges. -/
def exC9node : Worker.WNode := { id := "n", name := "n" }

def exC9nodes : List Worker.WNode :=
  [exC9node, { id := "a", name := "a" }, { id := "b", name := "b" }]

def exC9edges : List Worker.WEdge :=
  [⟨"a", "n", some "calls"⟩, ⟨"b", "n", some "calls"⟩,
   ⟨"a", "n", some "calls"⟩, ⟨"n", "b", some "calls"⟩]

/-- C10 witness: one node pinned at `x = 0` far outside the viewport, one
node inside it. -/
def exC10a : Worker.WNode := { id := "a", name := "a", x := some 0, y := some 5000 }

def exC10b : Worker.WNode := { id := "b", name := "b", x := some 10, y := some 10 }

def exC10nodes : List Worker.WNode := [exC10a, exC10b]

def exC10viewport : Worker.Viewport := ⟨0, 0, 100, 100, 1⟩

end Examples

/-! ## Generic helper lemmas -/

/-- A fold preserves any invariant its step function preserves. -/
theorem foldl_preserves {α β : Type} (P : α → Prop) (f : α → β → α)
    (hstep : ∀ a b, P a → P (f a b)) :
    ∀ (l : List β) (s : α), P s → P (l.foldl f s)
  | [], _, hs => hs
  | b :: l, s, hs => foldl_preserves P f hstep l (f s b) (hstep s b hs)

/-- Accumulating non-negative increments never decreases the accumulator. -/
theorem foldl_add_le {β : Type} (f : β → ℚ) (hf : ∀ b, 0 ≤ f b) :
    ∀ (l : List β) (r0 : ℚ), r0 ≤ l.foldl (fun r b => r + f b) r0 := by
  intro l
  induction l with
  | nil => intro r0; exact le_refl r0
  | cons b l ih =>
    intro r0
    calc r0 ≤ r0 + f b := by linarith [hf b]
      _ ≤ (b :: l).foldl (fun r b => r + f b) r0 := by
        simpa using ih (r0 + f b)

/-- A single list element's increment is a lower bound on the whole fold. -/
theorem foldl_add_elem_le {β : Type} (f : β → ℚ) (hf : ∀ b, 0 ≤ f b) :
    ∀ (l : List β) (x : β), x ∈ l → ∀ r0 : ℚ,
      r0 + f x ≤ l.foldl (fun r b => r + f b) r0 := by
  intro l
  induction l with
  | nil => intro x hx; cases hx
  | cons b l ih =>
    intro x hx r0
    rcases List.mem_cons.mp hx with hxb | hxl
    · subst hxb
      simpa using foldl_add_le f hf l (r0 + f x)
    · calc r0 + f x ≤ (r0 + f b) + f x := by linarith [hf b]
        _ ≤ l.foldl (fun r b => r + f b) (r0 + f b) := ih x hxl (r0 + f b)
        _ = (b :: l).foldl (fun r b => r + f b) r0 := by simp

/-! ## C1 — merge idempotence lemmas -/

namespace StreamMerge

theorem mergeNodeStep_edges (g : StreamingGraphData) (n : GraphNode) :
    (mergeNodeStep g n).edges = g.edges := by
  unfold mergeNodeStep; split <;> rfl

theorem mergeEdgeStep_nodeMap (g : StreamingGraphData) (e : GraphEdge) :
    (mergeEdgeStep g e).nodeMap = g.nodeMap := by
  unfold mergeEdgeStep; split <;> rfl

theorem nodeFold_edges (ns : List GraphNode) :
    ∀ g : StreamingGraphData, (ns.foldl mergeNodeStep g).edges = g.edges := by
  induction ns with
  | nil => intro g; rfl
  | cons n ns ih =>
    intro g
    simpa [mergeNodeStep_edges] using ih (mergeNodeStep g n)

theorem edgeFold_nodeMap (es : List GraphEdge) :
    ∀ g : StreamingGraphData, (es.foldl mergeEdgeStep g).nodeMap = g.nodeMap := by
  induction es with
  | nil => intro g; rfl
  | cons e es ih =>
    intro g
    simpa [mergeEdgeStep_nodeMap] using ih (mergeEdgeStep g e)

theorem mergeNodeStep_mono (g : StreamingGraphData) (n : GraphNode) (id : String)
    (h : hasNodeId g.nodeMap id = true) :
    hasNodeId (mergeNodeStep g n).nodeMap id = true := by
  unfold mergeNodeStep
  split
  · exact h
  · simp only [hasNodeId, List.any_append] at h ⊢
    simp [h]

theorem mergeNodeStep_has_self (g : StreamingGraphData) (n : GraphNode) :
    hasNodeId (mergeNodeStep g n).nodeMap n.id = true := by
  unfold mergeNodeStep
  split
  · assumption
  · simp [hasNodeId, List.any_append]

theorem nodeFold_mono (ns : List GraphNode) :
    ∀ (g : StreamingGraphData) (id : String), hasNodeId g.nodeMap id = true →
      hasNodeId (ns.foldl mergeNodeStep g).nodeMap id = true := by
  induction ns with
  | nil => intro g id h; exact h
  | cons n ns ih =>
    intro g id h
    simpa using ih (mergeNodeStep g n) id (mergeNodeStep_mono g n id h)

theorem nodeFold_has_mem (ns : List GraphNode) :
    ∀ (g : StreamingGraphData) (n : GraphNode), n ∈ ns →
      hasNodeId (ns.foldl mergeNodeStep g).nodeMap n.id = true := by
  induction ns with
  | nil => intro g n h; cases h
  | cons m ns ih =>
    intro g n h
    rcases List.mem_cons.mp h with h | h
    · subst h
      simpa using nodeFold_mono ns (mergeNodeStep g n) n.id (mergeNodeStep_has_self g n)
    · simpa using ih (mergeNodeStep g m) n h

theorem nodeFold_noop (ns : List GraphNode) :
    ∀ g : StreamingGraphData, (∀ n ∈ ns, hasNodeId g.nodeMap n.id = true) →
      ns.foldl mergeNodeStep g = g := by
  induction ns with
  | nil => intro g _; rfl
  | cons n ns ih =>
    intro g h
    have hn : mergeNodeStep g n = g := by
      unfold mergeNodeStep
      rw [if_pos (h n (List.mem_cons_self n ns))]
    simp only [List.foldl_cons, hn]
    exact ih g (fun m hm => h m (List.mem_cons_of_mem n hm))

theorem mergeEdgeStep_mono (g : StreamingGraphData) (e : GraphEdge) (s t : String)
    (h : hasEdgePair g.edges s t = true) :
    hasEdgePair (mergeEdgeStep g e).edges s t = true := by
  unfold mergeEdgeStep
  split
  · exact h
  · simp only [hasEdgePair, List.any_append] at h ⊢
    simp [h]

theorem mergeEdgeStep_has_self (g : StreamingGraphData) (e : GraphEdge) :
    hasEdgePair (mergeEdgeStep g e).edges e.source e.target = true := by
  unfold mergeEdgeStep
  split
  · assumption
  · simp [hasEdgePair, List.any_append]

theorem edgeFold_mono (es : List GraphEdge) :
    ∀ (g : StreamingGraphData) (s t : String), hasEdgePair g.edges s t = true →
      hasEdgePair (es.foldl mergeEdgeStep g).edges s t = true := by
  induction es with
  | nil => intro g s t h; exact h
  | cons e es ih =>
    intro g s t h
    simpa using ih (mergeEdgeStep g e) s t (mergeEdgeStep_mono g e s t h)

theorem edgeFold_has_mem (es : List GraphEdge) :
    ∀ (g : StreamingGraphData) (e : GraphEdge), e ∈ es →
      hasEdgePair (es.foldl mergeEdgeStep g).edges e.source e.target = true := by
  induction es with
  | nil => intro g e h; cases h
  | cons d es ih =>
    intro g e h
    rcases List.mem_cons.mp h with h | h
    · subst h
      simpa using edgeFold_mono es (mergeEdgeStep g e) e.source e.target
        (mergeEdgeStep_has_self g e)
    · simpa using ih (mergeEdgeStep g d) e h

theorem edgeFold_noop (es : List GraphEdge) :
    ∀ g : StreamingGraphData, (∀ e ∈ es, hasEdgePair g.edges e.source e.target = true) →
      es.foldl mergeEdgeStep g = g := by
  induction es with
  | nil => intro g _; rfl
  | cons e es ih =>
    intro g h
    have he : mergeEdgeStep g e = g := by
      unfold mergeEdgeStep
      rw [if_pos (h e (List.mem_cons_self e es))]
    simp only [List.foldl_cons, he]
    exact ih g (fun d hd => h d (List.mem_cons_of_mem e hd))

end StreamMerge

/-- **C1** (confirmed).  Merging a chunk is idempotent: merging the same
chunk a second time returns the identical graph; merging a single node whose
id is already indexed is a no-op, and merging a single edge whose
`(source, target)` pair is already present is a no-op. -/
theorem mergeChunk_idempotent_and_noop (g : StreamMerge.StreamingGraphData)
    (c : StreamMerge.GraphChunk) :
    StreamMerge.mergeChunk (StreamMerge.mergeChunk g c) c = StreamMerge.mergeChunk g c ∧
    (∀ n : StreamMerge.GraphNode, StreamMerge.hasNodeId g.nodeMap n.id = true →
      StreamMerge.mergeNodeStep g n = g) ∧
    (∀ e : StreamMerge.GraphEdge, StreamMerge.hasEdgePair g.edges e.source e.target = true →
      StreamMerge.mergeEdgeStep g e = g) := by
  open StreamMerge in
  refine ⟨?_, ?_, ?_⟩
  · set g1 := StreamMerge.mergeChunk g c with hg1
    have hnodes : ∀ n ∈ c.nodes, hasNodeId g1.nodeMap n.id = true := by
      intro n hn
      have : g1.nodeMap = (c.nodes.foldl mergeNodeStep g).nodeMap := by
        rw [hg1]; unfold mergeChunk
        exact edgeFold_nodeMap c.edges (c.nodes.foldl mergeNodeStep g)
      rw [this]
      exact nodeFold_has_mem c.nodes g n hn
    have hedges : ∀ e ∈ c.edges, hasEdgePair g1.edges e.source e.target = true := by
      intro e he
      rw [hg1]
      unfold mergeChunk
      exact edgeFold_has_mem c.edges (c.nodes.foldl mergeNodeStep g) e he
    show StreamMerge.mergeChunk g1 c = g1
    unfold mergeChunk
    rw [nodeFold_noop c.nodes g1 hnodes]
    exact edgeFold_noop c.edges g1 hedges
  · intro n h
    unfold StreamMerge.mergeNodeStep
    rw [if_pos h]
  · intro e h
    unfold StreamMerge.mergeEdgeStep
    rw [if_pos h]

/-- Witness for C1: on a concrete synced graph state, re-merging the present
node and the present edge are both no-ops. -/
theorem mergeChunk_idempotent_witness :
    StreamMerge.mergeNodeStep Examples.exMergeState Examples.exMergeNode =
      Examples.exMergeState ∧
    StreamMerge.mergeEdgeStep Examples.exMergeState Examples.exMergeEdge =
      Examples.exMergeState := by
  refine ⟨?_, ?_⟩
  · exact (mergeChunk_idempotent_and_noop Examples.exMergeState
      ⟨0, [], [], 0, 0, false, none⟩).2.1 Examples.exMergeNode (by decide)
  · exact (mergeChunk_idempotent_and_noop Examples.exMergeState
      ⟨0, [], [], 0, 0, false, none⟩).2.2 Examples.exMergeEdge (by decide)

/-- **C7** (code bug, evaluated at the failing input).  An explicit
`{"type":"error"}` frame does *not* surface as a terminal error: the
consumer's error state stays `none` and the stream keeps processing (the
chunk following the error frame is still merged).  Partial data merged
before the failure is retained in every case, and only a non-2xx upstream
status surfaces an error. -/
theorem streaming_error_swallowed_eval :
    (Streaming.startStreamingModel true 200 "OK" Examples.exC7batches).error = none ∧
    (Streaming.startStreamingModel true 200 "OK" Examples.exC7batches).graphData.nodes =
      [Examples.exC7n1, Examples.exC7n2] ∧
    (Streaming.startStreamingModel true 200 "OK" Examples.exC7batches).graphData.isComplete
      = true ∧
    (Streaming.startStreamingModel true 200 "OK" Examples.exC7batchesTrunc).error = none ∧
    (Streaming.startStreamingModel true 200 "OK" Examples.exC7batchesTrunc).isStreaming
      = true ∧
    (Streaming.startStreamingModel true 200 "OK" Examples.exC7batchesTrunc).graphData.nodes =
      [Examples.exC7n1] ∧
    (Streaming.startStreamingModel false 500 "Internal Server Error"
        Examples.exC7batches).error = some "HTTP 500: Internal Server Error" ∧
    (Streaming.startStreamingModel false 500 "Internal Server Error"
        Examples.exC7batches).graphData.nodes = [] := by
  exact ⟨rfl, rfl, rfl, rfl, rfl, rfl, rfl, rfl⟩

/-- **C8** (confirmed).  Viewport culling keeps every highlighted node and
the selected node: whenever such a node has a position at all — even one
outside the buffered viewport bounds — a rendered copy of it appears in the
retained node list. -/
theorem culling_retains_highlighted (nodes : List Virtualized.VNode)
    (positions : List (String × ℚ × ℚ)) (viewport : Virtualized.Viewport)
    (highlighted : List String) (selected : Option String) :
    ∀ n ∈ nodes, (highlighted.contains n.id = true ∨ selected = some n.id) →
      ∀ p : ℚ × ℚ, Virtualized.lookupPos positions n.id = some p →
        ∃ r ∈ (Virtualized.visibleElements nodes [] positions viewport
          highlighted selected).1, r.node = n := by
  intro n hn hsel p hp
  have h1 : ∃ r, Virtualized.renderNode positions viewport highlighted selected n = some r ∧
      r.node = n := by
    rcases hsel with h | h
    · have h' : n.id ∈ highlighted := by simpa using h
      simp [Virtualized.renderNode, hp, h']
    · simp [Virtualized.renderNode, hp, h]
  obtain ⟨r, hr, hrn⟩ := h1
  exact ⟨r, List.mem_filterMap.mpr ⟨n, hn, hr⟩, hrn⟩

/-- Witness for C8: a highlighted node positioned at `(1000, 1000)`, far
outside a `100 × 100` viewport at the origin, is still retained. -/
theorem culling_retains_highlighted_witness :
    ∃ r ∈ (Virtualized.visibleElements [Examples.exC8node] [] Examples.exC8positions
      Examples.exC8viewport ["h"] none).1, r.node = Examples.exC8node := by
  exact culling_retains_highlighted [Examples.exC8node] Examples.exC8positions
    Examples.exC8viewport ["h"] none Examples.exC8node (by decide)
    (Or.inl (by decide)) (1000, 1000) (by decide)

/-- **C10** (confirmed).  The worker's viewport filter returns the input
unchanged when no viewport is given, always returns a subset of its input,
and always retains a node whose `x` or `y` coordinate is absent or `0`
(both falsy in JS). -/
theorem viewport_filter_spec (nodes : List Worker.WNode)
    (viewport : Option Worker.Viewport) (buffer : ℚ) :
    Worker.filterNodesForViewport nodes none buffer = nodes ∧
    (∀ n ∈ Worker.filterNodesForViewport nodes viewport buffer, n ∈ nodes) ∧
    (∀ n ∈ nodes, (n.x = none ∨ n.x = some 0 ∨ n.y = none ∨ n.y = some 0) →
      n ∈ Worker.filterNodesForViewport nodes viewport buffer) := by
  refine ⟨rfl, ?_, ?_⟩
  · intro n hn
    cases viewport with
    | none => exact hn
    | some vp => exact List.mem_of_mem_filter hn
  · intro n hn hfalsy
    cases viewport with
    | none => exact hn
    | some vp =>
      apply List.mem_filter.mpr
      refine ⟨hn, ?_⟩
      rcases hfalsy with h | h | h | h <;>
        rcases hx : n.x with _ | px <;> rcases hy : n.y with _ | py <;>
        simp_all

/-- Witness for C10: the node pinned at `x = 0` stays in the filtered list
even though its `y` coordinate is far outside the viewport. -/
theorem viewport_filter_witness :
    Examples.exC10a ∈ Worker.filterNodesForViewport Examples.exC10nodes
      (some Examples.exC10viewport) 100 := by
  exact (viewport_filter_spec Examples.exC10nodes (some Examples.exC10viewport) 100).2.2
    Examples.exC10a (by decide) (Or.inr (Or.inl (by decide)))

/-! ## C4 — cycle severity lemmas -/

namespace DeadCode

/-- `recordCycle` only ever appends a cycle whose severity was computed by
`calculateCycleSeverity` on its (duplicate-containing) node list. -/
theorem recordCycle_severity (g : GraphData) (st : CycState) (nodeId : String)
    (path : List String)
    (h : ∀ c ∈ st.cycles, c.severity = calculateCycleSeverity c.nodes) :
    ∀ c ∈ (recordCycle g st nodeId path).cycles,
      c.severity = calculateCycleSeverity c.nodes := by
  unfold recordCycle
  split
  · dsimp only
    split
    · exact h
    · split
      · intro c hc
        simp only [List.mem_append, List.mem_singleton] at hc
        rcases hc with hc | hc
        · exact h c hc
        · subst hc; rfl
      · exact h
  · exact h

/-- Every cycle accumulated by the DFS satisfies the severity invariant. -/
theorem cycDfs_severity (g : GraphData) :
    ∀ (fuel : Nat) (nodeId : String) (path : List String) (st : CycState),
      (∀ c ∈ st.cycles, c.severity = calculateCycleSeverity c.nodes) →
      ∀ c ∈ (cycDfs g fuel nodeId path st).cycles,
        c.severity = calculateCycleSeverity c.nodes := by
  intro fuel
  induction fuel with
  | zero => intro nodeId path st h; exact h
  | succ fuel ih =>
    intro nodeId path st h
    simp only [cycDfs]
    split
    · exact recordCycle_severity g st nodeId path h
    · split
      · exact h
      · refine foldl_preserves
          (fun s : CycState => ∀ c ∈ s.cycles, c.severity = calculateCycleSeverity c.nodes)
          _ ?_ _ _ h
        intro a e ha
        dsimp only
        split
        · exact ih e.target (path ++ [nodeId]) a ha
        · exact ha

end DeadCode

/-- **C4** (corrected).  On `A→B→A` the detector returns exactly one cycle,
but its severity is `medium`, not `low`: the recorded node list repeats the
cycle-closing node, so a 2-node cycle carries 3 node entries.  On
`A→B→C→A` it returns exactly one cycle of severity `medium` (4 entries).
In general `calculateCycleSeverity` maps a node list of length ≤ 2 to `low`
(reached only by self-loops), 3-4 to `medium`, and > 4 to `high`, and every
detected cycle's severity is exactly `calculateCycleSeverity` of its
recorded node list. -/
theorem cycle_detection_severity :
    (DeadCode.detectCyclicDependencies Examples.exC4two).map (fun c => c.severity) =
      [DeadCode.Severity.medium] ∧
    (DeadCode.detectCyclicDependencies Examples.exC4three).map (fun c => c.severity) =
      [DeadCode.Severity.medium] ∧
    (∀ ns : List DeadCode.CodeReference,
      DeadCode.calculateCycleSeverity ns =
        if ns.length ≤ 2 then DeadCode.Severity.low
        else if ns.length ≤ 4 then DeadCode.Severity.medium
        else DeadCode.Severity.high) ∧
    (∀ g : DeadCode.GraphData, ∀ c ∈ DeadCode.detectCyclicDependencies g,
      c.severity = DeadCode.calculateCycleSeverity c.nodes) := by
  refine ⟨by decide, by decide, fun ns => rfl, ?_⟩
  intro g
  unfold DeadCode.detectCyclicDependencies
  refine foldl_preserves
    (fun s : DeadCode.CycState =>
      ∀ c ∈ s.cycles, c.severity = DeadCode.calculateCycleSeverity c.nodes)
    _ ?_ _ _ (by intro c hc; cases hc)
  intro a node ha
  dsimp only
  split
  · exact ha
  · exact DeadCode.cycDfs_severity g _ node.id [] a ha

/-- Counterexample for C4 as stated: the two-node cycle `A→B→A` yields one
cycle whose severity is `medium`, not `low`. -/
theorem two_node_cycle_severity_counterexample :
    (DeadCode.detectCyclicDependencies Examples.exC4two).map (fun c => c.severity) =
      [DeadCode.Severity.medium] ∧
    DeadCode.Severity.medium ≠ DeadCode.Severity.low := by
  exact ⟨by decide, by decide⟩

/-- Witness for C4: the concrete cycle detected on `A→B→A` satisfies the
severity invariant. -/
theorem cycle_detection_severity_witness :
    Examples.exC4cycle.severity = DeadCode.calculateCycleSeverity Examples.exC4cycle.nodes := by
  exact cycle_detection_severity.2.2.2 Examples.exC4two Examples.exC4cycle (by decide)

/-- **C5** (corrected).  For a non-empty graph the complexity score is
`min(100, round(10 × E/N))` as claimed, but `totalIssues` *includes* the
cycle count on top of the four dead-code counts, and the quality score
rounds before clamping:
`clamp(round(100 − 50·(totalIssues/N) − 5·cycles − 0.5·max(0, complexity − 50)), 0, 100)`. -/
theorem health_score_formulas (g : DeadCode.GraphData) (h : g.nodes ≠ []) :
    (DeadCode.analyzeCodeHealth g).complexityScore =
      min 100 (jsRound (10 * (g.edges.length : ℚ) / (g.nodes.length : ℚ))) ∧
    (DeadCode.analyzeCodeHealth g).totalIssues =
      (DeadCode.detectUnusedFunctions g).length + (DeadCode.findUnreachableCode g).length +
        (DeadCode.findOrphanedModules g).length + (DeadCode.detectCyclicDependencies g).length +
        (DeadCode.detectUnusedImports g).length ∧
    (DeadCode.analyzeCodeHealth g).codeQualityScore =
      max 0 (min 100 (jsRound (100 -
        ((DeadCode.analyzeCodeHealth g).totalIssues : ℚ) / (g.nodes.length : ℚ) * 50 -
        ((DeadCode.detectCyclicDependencies g).length : ℚ) * 5 -
        max 0 (((DeadCode.analyzeCodeHealth g).complexityScore : ℚ) - 50) * (1 / 2)))) := by
  have hN : g.nodes.length ≠ 0 := by
    simpa [List.length_eq_zero] using h
  refine ⟨?_, ?_, ?_⟩
  · simp only [DeadCode.analyzeCodeHealth, DeadCode.calculateComplexityScore]
    rw [if_neg hN]
    congr 1
    rw [div_mul_eq_mul_div, mul_comm]
  · simp only [DeadCode.analyzeCodeHealth, List.length_append]
  · simp only [DeadCode.analyzeCodeHealth, DeadCode.calculateCodeQualityScore,
      List.length_append]
    rw [if_neg hN]

/-- Witness for C5 (amended): the totalIssues identity evaluated on the
two-module import cycle. -/
theorem health_score_formulas_witness :
    (DeadCode.analyzeCodeHealth Examples.exC5).totalIssues =
      (DeadCode.detectUnusedFunctions Examples.exC5).length +
        (DeadCode.findUnreachableCode Examples.exC5).length +
        (DeadCode.findOrphanedModules Examples.exC5).length +
        (DeadCode.detectCyclicDependencies Examples.exC5).length +
        (DeadCode.detectUnusedImports Examples.exC5).length := by
  exact (health_score_formulas Examples.exC5 (by decide)).2.1

/-! ## C2 — chunk-loop lemmas -/

namespace StreamRoute

theorem chunkLoop_nil (a : List SEdge) (N S fuel i : Nat) :
    chunkLoop a N S fuel i [] = [] := by
  cases fuel <;> rfl

theorem chunkLoop_zero (a : List SEdge) (N S i : Nat) (remaining : List SNode) :
    chunkLoop a N S 0 i remaining = [] := by
  cases remaining <;> rfl

theorem chunkLoop_cons (a : List SEdge) (N S fuel i : Nat) (x : SNode) (xs : List SNode) :
    chunkLoop a N S (fuel + 1) i (x :: xs) =
      { chunk_id := ((i / S : Nat) : Int)
        nodes := (x :: xs).take S
        edges := a.filter (fun e => (((x :: xs).take S).map (fun n => n.id)).contains e.source
          || (((x :: xs).take S).map (fun n => n.id)).contains e.target)
        total_chunks := jsCeilDiv N S
        progress := min (((i + ((x :: xs).take S).length : Nat) : ℚ) / (N : ℚ)) 1
        is_final := decide (N ≤ i + S)
        metadata := none } :: chunkLoop a N S fuel (i + S) ((x :: xs).drop S) := rfl

theorem clampChunkSize_bounds (req : Option Int) :
    50 ≤ clampChunkSize req ∧ clampChunkSize req ≤ 500 := by
  rcases req with _ | v <;> simp only [clampChunkSize] <;> omega

theorem clampedSizeNat_bounds (req : Option Int) :
    50 ≤ clampedSizeNat req ∧ clampedSizeNat req ≤ 500 := by
  have h := clampChunkSize_bounds req
  unfold clampedSizeNat
  omega

/-- Length of the emitted chunk list: one chunk per started slice,
`⌈remaining/S⌉` in total. -/
theorem chunkLoop_length (a : List SEdge) (N S : Nat) (hS : 1 ≤ S) :
    ∀ (fuel i : Nat) (remaining : List SNode), remaining.length ≤ fuel →
      (chunkLoop a N S fuel i remaining).length = (remaining.length + S - 1) / S := by
  intro fuel
  induction fuel with
  | zero =>
    intro i remaining hf
    have h0 : remaining = [] := List.eq_nil_of_length_eq_zero (Nat.le_zero.mp hf)
    subst h0
    rw [chunkLoop_nil]
    simp only [List.length_nil]
    exact (Nat.div_eq_of_lt (by omega)).symm
  | succ fuel ih =>
    intro i remaining hf
    cases remaining with
    | nil =>
      rw [chunkLoop_nil]
      simp only [List.length_nil]
      exact (Nat.div_eq_of_lt (by omega)).symm
    | cons x xs =>
      rw [chunkLoop_cons]
      show (chunkLoop a N S fuel (i + S) ((x :: xs).drop S)).length + 1 =
        ((x :: xs).length + S - 1) / S
      rw [ih (i + S) ((x :: xs).drop S) (by rw [List.length_drop]; omega)]
      rw [List.length_drop]
      have hL1 : 1 ≤ (x :: xs).length := by simp
      rcases le_or_lt (x :: xs).length S with hle | hlt
      · have h1 : (x :: xs).length - S = 0 := by omega
        rw [h1]
        have h2 : (0 + S - 1) / S = 0 := Nat.div_eq_of_lt (by omega)
        have h3 : ((x :: xs).length + S - 1) / S = 1 := by
          apply Nat.div_eq_of_lt_le
          · omega
          · omega
        omega
      · have h4 : (x :: xs).length + S - 1 = ((x :: xs).length - S + S - 1) + S := by omega
        rw [h4, Nat.add_div_right _ (by omega)]

/-- Every emitted chunk carries at least one node. -/
theorem chunkLoop_nodes_nonempty (a : List SEdge) (N S : Nat) (hS : 1 ≤ S) :
    ∀ (fuel i : Nat) (remaining : List SNode),
      ∀ c ∈ chunkLoop a N S fuel i remaining, 1 ≤ c.nodes.length := by
  intro fuel
  induction fuel with
  | zero =>
    intro i remaining c hc
    rw [chunkLoop_zero] at hc
    cases hc
  | succ fuel ih =>
    intro i remaining c hc
    cases remaining with
    | nil => rw [chunkLoop_nil] at hc; cases hc
    | cons x xs =>
      rw [chunkLoop_cons] at hc
      rcases List.mem_cons.mp hc with hc | hc
      · subst hc
        show 1 ≤ ((x :: xs).take S).length
        rw [List.length_take]
        simp only [List.length_cons]
        omega
      · exact ih (i + S) ((x :: xs).drop S) c hc

/-- `is_final` is false on every chunk except the last, where it is true. -/
theorem chunkLoop_is_final (a : List SEdge) (N S : Nat) (hS : 1 ≤ S) :
    ∀ (fuel i : Nat) (remaining : List SNode), remaining.length ≤ fuel →
      i + remaining.length = N → remaining ≠ [] →
      (chunkLoop a N S fuel i remaining).map (fun c => c.is_final) =
        List.replicate ((chunkLoop a N S fuel i remaining).length - 1) false ++ [true] := by
  intro fuel
  induction fuel with
  | zero =>
    intro i remaining hf hN hne
    exact absurd (List.eq_nil_of_length_eq_zero (Nat.le_zero.mp hf)) hne
  | succ fuel ih =>
    intro i remaining hf hN hne
    cases remaining with
    | nil => exact absurd rfl hne
    | cons x xs =>
      rw [chunkLoop_cons]
      rcases le_or_lt (x :: xs).length S with hle | hlt
      · have hdrop : (x :: xs).drop S = [] := by
          apply List.eq_nil_of_length_eq_zero
          rw [List.length_drop]
          omega
        rw [hdrop, chunkLoop_nil]
        have hfin : decide (N ≤ i + S) = true := by
          simp only [decide_eq_true_eq]
          omega
        simp [hfin]
      · have hdne : (x :: xs).drop S ≠ [] := by
          intro hcon
          have hcl := congrArg List.length hcon
          rw [List.length_drop] at hcl
          simp only [List.length_nil] at hcl
          omega
        have hfin : decide (N ≤ i + S) = false := by
          simp only [decide_eq_false_iff_not]
          omega
        have hreclen : 1 ≤ (chunkLoop a N S fuel (i + S) ((x :: xs).drop S)).length := by
          rw [chunkLoop_length a N S hS fuel (i + S) _ (by rw [List.length_drop]; omega)]
          rw [List.length_drop]
          rw [Nat.one_le_div_iff (by omega)]
          omega
        have hrec := ih (i + S) ((x :: xs).drop S)
          (by rw [List.length_drop]; omega)
          (by rw [List.length_drop]; omega) hdne
        simp only [List.map_cons, hrec, hfin, List.length_cons]
        rw [show (chunkLoop a N S fuel (i + S) ((x :: xs).drop S)).length + 1 - 1 =
          ((chunkLoop a N S fuel (i + S) ((x :: xs).drop S)).length - 1) + 1 from by omega]
        rw [List.replicate_succ]
        simp

/-- Each chunk's progress is exactly the cumulative number of nodes emitted
through that chunk (plus the `i` already emitted before the call), divided
by the total node count. -/
theorem chunkLoop_progress_cum (a : List SEdge) (N S : Nat) (hS : 1 ≤ S) (hN0 : 0 < N) :
    ∀ (fuel i : Nat) (remaining : List SNode), remaining.length ≤ fuel →
      i + remaining.length = N →
      ∀ (j : Nat) (hj : j < (chunkLoop a N S fuel i remaining).length),
        ((chunkLoop a N S fuel i remaining).get ⟨j, hj⟩).progress =
          (((i + (((chunkLoop a N S fuel i remaining).take (j + 1)).map
            (fun c => c.nodes.length)).sum : Nat) : ℚ)) / (N : ℚ) := by
  intro fuel
  induction fuel with
  | zero =>
    intro i remaining hf hN j hj
    have h0 : remaining = [] := List.eq_nil_of_length_eq_zero (Nat.le_zero.mp hf)
    subst h0
    rw [chunkLoop_nil] at hj
    cases hj
  | succ fuel ih =>
    intro i remaining hf hN j hj
    cases remaining with
    | nil =>
      rw [chunkLoop_nil] at hj
      cases hj
    | cons x xs =>
      cases j with
      | zero =>
        have hm : ((x :: xs).take S).length ≤ (x :: xs).length := by
          rw [List.length_take]; omega
        have hle1 : (((i + ((x :: xs).take S).length : Nat) : ℚ)) / (N : ℚ) ≤ 1 := by
          rw [div_le_one (by positivity)]
          have hle2 : i + ((x :: xs).take S).length ≤ N := by omega
          exact_mod_cast hle2
        have hget : ((chunkLoop a N S (fuel + 1) i (x :: xs)).get ⟨0, hj⟩).progress =
            min (((i + ((x :: xs).take S).length : Nat) : ℚ) / (N : ℚ)) 1 := rfl
        have hsum : (((chunkLoop a N S (fuel + 1) i (x :: xs)).take (0 + 1)).map
            (fun c => c.nodes.length)).sum = ((x :: xs).take S).length := rfl
        rw [hget, hsum]
        exact min_eq_left hle1
      | succ j =>
        have hj' : j < (chunkLoop a N S fuel (i + S) ((x :: xs).drop S)).length := by
          rw [chunkLoop_cons] at hj
          simp only [List.length_cons] at hj
          omega
        have hdne : (x :: xs).drop S ≠ [] := by
          intro hcon
          rw [hcon, chunkLoop_nil] at hj'
          cases hj'
        have hSL : S < (x :: xs).length := by
          by_contra hcon
          push_neg at hcon
          apply hdne
          apply List.eq_nil_of_length_eq_zero
          rw [List.length_drop]
          omega
        have htake : ((x :: xs).take S).length = S := by
          rw [List.length_take]
          omega
        have hrec := ih (i + S) ((x :: xs).drop S)
          (by rw [List.length_drop]; omega)
          (by rw [List.length_drop]; omega) j hj'
        have hget : ((chunkLoop a N S (fuel + 1) i (x :: xs)).get ⟨j + 1, hj⟩).progress =
            ((chunkLoop a N S fuel (i + S) ((x :: xs).drop S)).get ⟨j, hj'⟩).progress := rfl
        have hsum : (((chunkLoop a N S (fuel + 1) i (x :: xs)).take (j + 1 + 1)).map
            (fun c => c.nodes.length)).sum =
            ((x :: xs).take S).length +
              (((chunkLoop a N S fuel (i + S) ((x :: xs).drop S)).take (j + 1)).map
                (fun c => c.nodes.length)).sum := rfl
        rw [hget, hrec, hsum, htake]
        congr 1
        push_cast
        ring

/-- Successive chunk progress values are strictly increasing. -/
theorem chunkLoop_progress_chain (a : List SEdge) (N S : Nat) (hS : 1 ≤ S) (hN0 : 0 < N) :
    ∀ (fuel i : Nat) (remaining : List SNode), remaining.length ≤ fuel →
      i + remaining.length = N →
      List.Chain' (fun c1 c2 => c1.progress < c2.progress)
        (chunkLoop a N S fuel i remaining) := by
  intro fuel i remaining hf hN
  rw [List.chain'_iff_get]
  intro j hj
  have hj1 : j + 1 < (chunkLoop a N S fuel i remaining).length := by omega
  have hj0 : j < (chunkLoop a N S fuel i remaining).length := by omega
  rw [chunkLoop_progress_cum a N S hS hN0 fuel i remaining hf hN j hj0,
    chunkLoop_progress_cum a N S hS hN0 fuel i remaining hf hN (j + 1) hj1]
  rw [div_lt_div_iff_of_pos_right (by exact_mod_cast hN0)]
  have htake : (chunkLoop a N S fuel i remaining).take (j + 1 + 1) =
      (chunkLoop a N S fuel i remaining).take (j + 1) ++
        [((chunkLoop a N S fuel i remaining).get ⟨j + 1, hj1⟩)] := by
    rw [List.take_succ]
    congr 1
    rw [List.getElem?_eq_getElem hj1]
    simp [List.get_eq_getElem]
  rw [htake]
  simp only [List.map_append, List.sum_append, List.map_cons, List.map_nil, List.sum_cons,
    List.sum_nil]
  have hpos : 1 ≤ ((chunkLoop a N S fuel i remaining).get ⟨j + 1, hj1⟩).nodes.length :=
    chunkLoop_nodes_nonempty a N S hS fuel i remaining _ (List.get_mem _ _ _)
  have hlt : (i + (((chunkLoop a N S fuel i remaining).take (j + 1)).map
      (fun c => c.nodes.length)).sum : Nat) <
      (i + ((((chunkLoop a N S fuel i remaining).take (j + 1)).map
        (fun c => c.nodes.length)).sum +
        (((chunkLoop a N S fuel i remaining).get ⟨j + 1, hj1⟩).nodes.length + 0)) : Nat) := by
    omega
  exact_mod_cast hlt

/-- The last chunk's progress is exactly 1. -/
theorem chunkLoop_last_progress (a : List SEdge) (N S : Nat) (hS : 1 ≤ S) (hN0 : 0 < N) :
    ∀ (fuel i : Nat) (remaining : List SNode), remaining.length ≤ fuel →
      i + remaining.length = N → remaining ≠ [] →
      ((chunkLoop a N S fuel i remaining).map (fun c => c.progress)).getLast? = some 1 := by
  intro fuel
  induction fuel with
  | zero =>
    intro i remaining hf hN hne
    exact absurd (List.eq_nil_of_length_eq_zero (Nat.le_zero.mp hf)) hne
  | succ fuel ih =>
    intro i remaining hf hN hne
    cases remaining with
    | nil => exact absurd rfl hne
    | cons x xs =>
      rw [chunkLoop_cons]
      rcases le_or_lt (x :: xs).length S with hle | hlt
      · have hdrop : (x :: xs).drop S = [] := by
          apply List.eq_nil_of_length_eq_zero
          rw [List.length_drop]
          omega
        have htake : ((x :: xs).take S).length = (x :: xs).length := by
          rw [List.length_take]
          omega
        rw [hdrop, chunkLoop_nil]
        simp only [List.map_cons, List.map_nil]
        rw [show (([min (((i + ((x :: xs).take S).length : Nat) : ℚ) / (N : ℚ)) 1]) :
          List ℚ).getLast? = some (min (((i + ((x :: xs).take S).length : Nat) : ℚ) /
            (N : ℚ)) 1) from rfl]
        rw [htake]
        have hfull : ((i + (x :: xs).length : Nat) : ℚ) / (N : ℚ) = 1 := by
          rw [hN]
          exact div_self (by positivity)
        rw [hfull]
        simp
      · have hdne : (x :: xs).drop S ≠ [] := by
          intro hcon
          have hcl := congrArg List.length hcon
          rw [List.length_drop] at hcl
          simp only [List.length_nil] at hcl
          omega
        have hrec := ih (i + S) ((x :: xs).drop S)
          (by rw [List.length_drop]; omega)
          (by rw [List.length_drop]; omega) hdne
        have hrecne : (chunkLoop a N S fuel (i + S) ((x :: xs).drop S)).map
            (fun c => c.progress) ≠ [] := by
          intro hcon
          rw [hcon] at hrec
          cases hrec
        simp only [List.map_cons]
        rw [List.getLast?_eq_getLast_of_ne_nil (List.cons_ne_nil _ _),
          List.getLast_cons hrecne]
        rw [List.getLast?_eq_getLast_of_ne_nil hrecne] at hrec
        simpa using hrec

/-- The empty node list yields no data chunks. -/
theorem dataChunks_nil (edges : List SEdge) (S : Nat) :
    dataChunks [] edges S = [] := rfl

end StreamRoute

/-- **C2** (confirmed).  The transport clamps the requested chunk size to
`[50, 500]` (defaulting to 200 when absent or 0), sends the optional
metadata preamble with `chunk_id = -1` first, and emits exactly
`⌈N/S⌉` data chunks whose progress values are exactly the cumulative
number of emitted nodes over the total, strictly increasing, ending at 1,
with `is_final` true exactly on the last chunk; 1000 nodes at chunk size
200 yield exactly 5 data chunks. -/
theorem transport_chunking_spec (req : Option Int) (nodes : List StreamRoute.SNode)
    (edges : List StreamRoute.SEdge) (priority : Bool) :
    (50 ≤ StreamRoute.clampedSizeNat req ∧ StreamRoute.clampedSizeNat req ≤ 500 ∧
      StreamRoute.clampedSizeNat none = 200) ∧
    (StreamRoute.streamOutput true priority nodes edges
      (StreamRoute.clampedSizeNat req)).head? =
      some (StreamRoute.metaChunk nodes edges (StreamRoute.clampedSizeNat req)) ∧
    (StreamRoute.metaChunk nodes edges (StreamRoute.clampedSizeNat req)).chunk_id = -1 ∧
    (StreamRoute.sortForPriority priority nodes).length = nodes.length ∧
    (StreamRoute.dataChunks (StreamRoute.sortForPriority priority nodes) edges
      (StreamRoute.clampedSizeNat req)).length =
      StreamRoute.jsCeilDiv nodes.length (StreamRoute.clampedSizeNat req) ∧
    (nodes.length = 1000 →
      (StreamRoute.dataChunks (StreamRoute.sortForPriority priority nodes) edges
        (StreamRoute.clampedSizeNat (some 200))).length = 5) ∧
    List.Chain' (fun c1 c2 => c1.progress < c2.progress)
      (StreamRoute.dataChunks (StreamRoute.sortForPriority priority nodes) edges
        (StreamRoute.clampedSizeNat req)) ∧
    (∀ (j : Nat) (hj : j < (StreamRoute.dataChunks (StreamRoute.sortForPriority priority nodes)
        edges (StreamRoute.clampedSizeNat req)).length),
      ((StreamRoute.dataChunks (StreamRoute.sortForPriority priority nodes) edges
        (StreamRoute.clampedSizeNat req)).get ⟨j, hj⟩).progress =
        ((((((StreamRoute.dataChunks (StreamRoute.sortForPriority priority nodes) edges
          (StreamRoute.clampedSizeNat req)).take (j + 1)).map
            (fun c => c.nodes.length)).sum : Nat) : ℚ)) /
          (((StreamRoute.sortForPriority priority nodes).length : ℚ))) ∧
    ((StreamRoute.dataChunks (StreamRoute.sortForPriority priority nodes) edges
        (StreamRoute.clampedSizeNat req)) ≠ [] →
      ((StreamRoute.dataChunks (StreamRoute.sortForPriority priority nodes) edges
        (StreamRoute.clampedSizeNat req)).map (fun c => c.progress)).getLast? = some 1) ∧
    ((StreamRoute.dataChunks (StreamRoute.sortForPriority priority nodes) edges
        (StreamRoute.clampedSizeNat req)) ≠ [] →
      (StreamRoute.dataChunks (StreamRoute.sortForPriority priority nodes) edges
        (StreamRoute.clampedSizeNat req)).map (fun c => c.is_final) =
        List.replicate ((StreamRoute.dataChunks (StreamRoute.sortForPriority priority nodes)
          edges (StreamRoute.clampedSizeNat req)).length - 1) false ++ [true]) := by
  have hb := StreamRoute.clampedSizeNat_bounds req
  have hS : 1 ≤ StreamRoute.clampedSizeNat req := by omega
  have hsortlen : (StreamRoute.sortForPriority priority nodes).length = nodes.length := by
    unfold StreamRoute.sortForPriority
    split
    · simp [List.length_mergeSort]
    · rfl
  refine ⟨⟨hb.1, hb.2, by decide⟩, rfl, rfl, hsortlen, ?_, ?_, ?_, ?_, ?_, ?_⟩
  · exact (StreamRoute.chunkLoop_length edges _ _ hS _ 0 _ (le_refl _)).trans
      (by rw [hsortlen]; rfl)
  · intro h1000
    have hS200 : 1 ≤ StreamRoute.clampedSizeNat (some 200) := by decide
    refine (StreamRoute.chunkLoop_length edges _ _ hS200 _ 0 _ (le_refl _)).trans ?_
    rw [hsortlen, h1000]
    decide
  · rcases Nat.eq_zero_or_pos nodes.length with h0 | hpos
    · have hnil : StreamRoute.sortForPriority priority nodes = [] :=
        List.eq_nil_of_length_eq_zero (by rw [hsortlen]; exact h0)
      have hdc : StreamRoute.dataChunks (StreamRoute.sortForPriority priority nodes) edges
          (StreamRoute.clampedSizeNat req) = [] := by
        rw [hnil]
        exact StreamRoute.dataChunks_nil edges _
      rw [hdc]
      exact List.chain'_nil
    · exact StreamRoute.chunkLoop_progress_chain edges _ _ hS (by rw [hsortlen]; exact hpos)
        _ 0 _ (le_refl _) (Nat.zero_add _)
  · intro j hj
    rcases Nat.eq_zero_or_pos nodes.length with h0 | hpos
    · exfalso
      have hnil : StreamRoute.sortForPriority priority nodes = [] :=
        List.eq_nil_of_length_eq_zero (by rw [hsortlen]; exact h0)
      have hdc : StreamRoute.dataChunks (StreamRoute.sortForPriority priority nodes) edges
          (StreamRoute.clampedSizeNat req) = [] := by
        rw [hnil]
        exact StreamRoute.dataChunks_nil edges _
      rw [hdc] at hj
      cases hj
    · have hc := StreamRoute.chunkLoop_progress_cum edges
        (StreamRoute.sortForPriority priority nodes).length (StreamRoute.clampedSizeNat req)
        hS (by rw [hsortlen]; exact hpos) (StreamRoute.sortForPriority priority nodes).length
        0 (StreamRoute.sortForPriority priority nodes) (le_refl _) (Nat.zero_add _) j hj
      refine hc.trans ?_
      rw [Nat.zero_add]
      rfl
  · intro hne
    have hsne : StreamRoute.sortForPriority priority nodes ≠ [] := by
      intro hc
      exact hne (by rw [hc]; exact StreamRoute.dataChunks_nil edges _)
    exact StreamRoute.chunkLoop_last_progress edges _ _ hS
      (List.length_pos.mpr hsne) _ 0 _ (le_refl _) (Nat.zero_add _) hsne
  · intro hne
    have hsne : StreamRoute.sortForPriority priority nodes ≠ [] := by
      intro hc
      exact hne (by rw [hc]; exact StreamRoute.dataChunks_nil edges _)
    exact StreamRoute.chunkLoop_is_final edges _ _ hS _ 0 _ (le_refl _) (Nat.zero_add _) hsne

/-- Witness for C2: 120 nodes with a requested chunk size of 30 (clamped to
50) produce 3 data chunks with progress ending at 1, the final flag only
last, and first-chunk progress 50/120; 1000 nodes at chunk size 200 produce
exactly 5 data chunks. -/
theorem transport_chunking_witness :
    (StreamRoute.dataChunks (StreamRoute.sortForPriority false Examples.exStreamNodes) []
      (StreamRoute.clampedSizeNat (some 30))).length = 3 ∧
    ((StreamRoute.dataChunks (StreamRoute.sortForPriority false Examples.exStreamNodes) []
      (StreamRoute.clampedSizeNat (some 30))).map (fun c => c.progress)).getLast? = some 1 ∧
    (StreamRoute.dataChunks (StreamRoute.sortForPriority false Examples.exStreamNodes) []
      (StreamRoute.clampedSizeNat (some 30))).map (fun c => c.is_final) =
      [false, false, true] ∧
    ((StreamRoute.dataChunks (StreamRoute.sortForPriority false Examples.exStreamNodes) []
      (StreamRoute.clampedSizeNat (some 30))).get ⟨0, by decide⟩).progress =
      ((50 : Nat) : ℚ) / ((120 : Nat) : ℚ) ∧
    (StreamRoute.dataChunks (StreamRoute.sortForPriority false Examples.exStreamNodes1000) []
      (StreamRoute.clampedSizeNat (some 200))).length = 5 := by
  have hspec := transport_chunking_spec (some 30) Examples.exStreamNodes [] false
  have hlen : (StreamRoute.dataChunks (StreamRoute.sortForPriority false Examples.exStreamNodes)
      [] (StreamRoute.clampedSizeNat (some 30))).length = 3 := by
    refine hspec.2.2.2.2.1.trans ?_
    decide
  have hne : StreamRoute.dataChunks (StreamRoute.sortForPriority false Examples.exStreamNodes)
      [] (StreamRoute.clampedSizeNat (some 30)) ≠ [] := by
    intro hc
    rw [hc] at hlen
    cases hlen
  refine ⟨hlen, hspec.2.2.2.2.2.2.2.2.1 hne, ?_, ?_, ?_⟩
  · rw [hspec.2.2.2.2.2.2.2.2.2 hne, hlen]
    decide
  · have hc := hspec.2.2.2.2.2.2.2.1 0 (by decide)
    refine hc.trans ?_
    rw [show ((((StreamRoute.dataChunks (StreamRoute.sortForPriority false
      Examples.exStreamNodes) [] (StreamRoute.clampedSizeNat (some 30))).take (0 + 1)).map
        (fun c => c.nodes.length)).sum) = 50 from by decide]
    rw [show (StreamRoute.sortForPriority false Examples.exStreamNodes).length = 120 from
      by decide]
  · have hspec2 := transport_chunking_spec (some 200) Examples.exStreamNodes1000 [] false
    exact hspec2.2.2.2.2.2.1 (by
      show (List.replicate 1000 Examples.exStreamNode).length = 1000
      rw [List.length_replicate])

/-! ## C3 — BFS correctness lemmas -/

namespace ConnectedNodes

theorem bfsAux_nil (edges : List GEdge) (nodeId : String) (maxDepth fuel : Nat)
    (st : BfsResult) : bfsAux edges nodeId maxDepth fuel st [] = st := by
  cases fuel <;> rfl

theorem bfsAux_cons (edges : List GEdge) (nodeId : String) (maxDepth : Nat)
    (fuel : Nat) (st : BfsResult) (id : String) (d : Nat) (p : List String)
    (rest : List QEntry) :
    bfsAux edges nodeId maxDepth (fuel + 1) st ((id, d, p) :: rest) =
      if id ∈ st.visited ∨ maxDepth < d then
        bfsAux edges nodeId maxDepth fuel st rest
      else
        bfsAux edges nodeId maxDepth fuel (visitState nodeId st id d p)
          (if d < maxDepth then
            rest ++ pushedEntries edges (visitState nodeId st id d p) id d p
          else rest) := rfl

theorem mem_idsF_origin (edges : List GEdge) (nodeId : String) :
    nodeId ∈ idsF edges nodeId := by
  show nodeId ∈ (allIds edges nodeId).toFinset
  rw [List.mem_toFinset]
  exact List.mem_cons_self _ _

theorem mem_idsF_of_edge (edges : List GEdge) (nodeId : String) (e : GEdge)
    (he : e ∈ edges) :
    e.source ∈ idsF edges nodeId ∧ e.target ∈ idsF edges nodeId := by
  constructor <;>
    (rw [show idsF edges nodeId = (allIds edges nodeId).toFinset from rfl,
       List.mem_toFinset]
     exact List.mem_cons_of_mem _ (List.mem_flatMap.mpr ⟨e, he, by simp⟩))

theorem visited_succ_le_card (edges : List GEdge) (nodeId : String) (V : List String)
    (id : String) (hnd : V.Nodup) (hsub : ∀ w ∈ V, w ∈ idsF edges nodeId)
    (hid : id ∈ idsF edges nodeId) (hni : id ∉ V) :
    V.length + 1 ≤ (idsF edges nodeId).card := by
  have h1 : (insert id V.toFinset).card = V.length + 1 := by
    rw [Finset.card_insert_of_not_mem (by simpa using hni),
      List.toFinset_card_of_nodup hnd]
  have h2 : insert id V.toFinset ⊆ idsF edges nodeId := by
    intro w hw
    rcases Finset.mem_insert.mp hw with h | h
    · rw [h]; exact hid
    · exact hsub w (List.mem_toFinset.mp h)
  calc V.length + 1 = (insert id V.toFinset).card := h1.symm
    _ ≤ _ := Finset.card_le_card h2

theorem visited_saturated (edges : List GEdge) (nodeId : String) (V : List String)
    (hnd : V.Nodup) (hsub : ∀ w ∈ V, w ∈ idsF edges nodeId)
    (hcard : (idsF edges nodeId).card ≤ V.length) :
    ∀ v ∈ idsF edges nodeId, v ∈ V := by
  have hss : V.toFinset ⊆ idsF edges nodeId := fun w hw => hsub w (List.mem_toFinset.mp hw)
  have heq : V.toFinset = idsF edges nodeId :=
    Finset.eq_of_subset_of_card_le hss
      (by rw [List.toFinset_card_of_nodup hnd]; exact hcard)
  intro v hv
  rw [← heq] at hv
  exact List.mem_toFinset.mp hv

theorem pushed_out (edges : List GEdge) (st1 : BfsResult) (id : String) (d : Nat)
    (p : List String) (e : GEdge) (he : e ∈ edges) (hs : e.source = id)
    (ht : e.target ∉ st1.visited) :
    ∃ q ∈ pushedEntries edges st1 id d p, q.1 = e.target := by
  refine ⟨(e.target, d + 1, p ++ [e.relationship.getD "connected"]), ?_, rfl⟩
  apply List.mem_append_left
  apply List.mem_map_of_mem
  rw [List.mem_filter]
  refine ⟨?_, by simp [ht]⟩
  rw [show outgoingOf edges id = edges.filter (fun e => e.source == id) from rfl,
    List.mem_filter]
  exact ⟨he, by simp [hs]⟩

theorem pushed_in (edges : List GEdge) (st1 : BfsResult) (id : String) (d : Nat)
    (p : List String) (e : GEdge) (he : e ∈ edges) (hs : e.target = id)
    (ht : e.source ∉ st1.visited) :
    ∃ q ∈ pushedEntries edges st1 id d p, q.1 = e.source := by
  refine ⟨(e.source, d + 1,
    p ++ [(e.relationship.getD "connected") ++ " (reverse)"]), ?_, rfl⟩
  apply List.mem_append_right
  apply List.mem_map_of_mem
  rw [List.mem_filter]
  refine ⟨?_, by simp [ht]⟩
  rw [show incomingOf edges id = edges.filter (fun e => e.target == id) from rfl,
    List.mem_filter]
  exact ⟨he, by simp [hs]⟩

theorem pushed_spec (edges : List GEdge) (st1 : BfsResult) (id : String) (d : Nat)
    (p : List String) (q : QEntry) (hq : q ∈ pushedEntries edges st1 id d p) :
    (∃ e ∈ edges, (e.source = id ∧ q.1 = e.target) ∨ (e.target = id ∧ q.1 = e.source)) ∧
      q.2.1 = d + 1 := by
  unfold pushedEntries at hq
  rcases List.mem_append.mp hq with h | h
  · obtain ⟨e, he, rfl⟩ := List.mem_map.mp h
    obtain ⟨he1, _⟩ := List.mem_filter.mp he
    obtain ⟨he2, hsrc⟩ := List.mem_filter.mp
      (show e ∈ edges.filter (fun e => e.source == id) from he1)
    exact ⟨⟨e, he2, Or.inl ⟨by simpa using hsrc, rfl⟩⟩, rfl⟩
  · obtain ⟨e, he, rfl⟩ := List.mem_map.mp h
    obtain ⟨he1, _⟩ := List.mem_filter.mp he
    obtain ⟨he2, htgt⟩ := List.mem_filter.mp
      (show e ∈ edges.filter (fun e => e.target == id) from he1)
    exact ⟨⟨e, he2, Or.inr ⟨by simpa using htgt, rfl⟩⟩, rfl⟩

theorem pushed_length_le (edges : List GEdge) (st1 : BfsResult) (id : String)
    (d : Nat) (p : List String) :
    (pushedEntries edges st1 id d p).length ≤ 2 * edges.length := by
  unfold pushedEntries
  rw [List.length_append, List.length_map, List.length_map]
  have h1 := List.length_filter_le (fun e => !(st1.visited.contains e.target))
    (outgoingOf edges id)
  have h2 := List.length_filter_le (fun e => !(st1.visited.contains e.source))
    (incomingOf edges id)
  have h3 : (outgoingOf edges id).length ≤ edges.length :=
    List.length_filter_le (fun e : GEdge => e.source == id) edges
  have h4 : (incomingOf edges id).length ≤ edges.length :=
    List.length_filter_le (fun e : GEdge => e.target == id) edges
  omega

theorem post_of_inv_nil (edges : List GEdge) (nodeId : String) (st : BfsResult)
    (hinv : Inv edges nodeId st []) : Post edges nodeId st st := by
  refine ⟨fun w hw => hw, hinv.vis_reach, ?_, ?_, hinv.conn⟩
  · intro u hu v hstep
    rcases hinv.closure u hu v hstep with h | ⟨q, hq, _⟩
    · exact h
    · cases hq
  · rcases hinv.origin with h | ⟨q, hq, _⟩
    · exact h
    · cases hq

theorem inv_stale (edges : List GEdge) (nodeId : String) (st : BfsResult)
    (id : String) (d : Nat) (p : List String) (rest : List QEntry)
    (hinv : Inv edges nodeId st ((id, d, p) :: rest)) (hid : id ∈ st.visited) :
    Inv edges nodeId st rest := by
  refine ⟨hinv.nodup, hinv.vis_ids, ?_, ?_, hinv.vis_reach, ?_, ?_, ?_, hinv.conn⟩
  · exact fun q hq => hinv.q_ids q (List.mem_cons_of_mem _ hq)
  · exact fun q hq => hinv.q_depth q (List.mem_cons_of_mem _ hq)
  · exact fun q hq => hinv.q_reach q (List.mem_cons_of_mem _ hq)
  · intro u hu v hstep
    rcases hinv.closure u hu v hstep with h | ⟨q, hq, hq1⟩
    · exact Or.inl h
    · rcases List.mem_cons.mp hq with hq' | hq'
      · left
        subst hq'
        have hidv : id = v := hq1
        rw [← hidv]
        exact hid
      · exact Or.inr ⟨q, hq', hq1⟩
  · rcases hinv.origin with h | ⟨q, hq, hq1⟩
    · exact Or.inl h
    · rcases List.mem_cons.mp hq with hq' | hq'
      · left
        subst hq'
        have hidv : id = nodeId := hq1
        rw [← hidv]
        exact hid
      · exact Or.inr ⟨q, hq', hq1⟩

theorem stale_mem (edges : List GEdge) (nodeId : String) (maxDepth : Nat)
    (hdepth : (idsF edges nodeId).card ≤ maxDepth)
    (st : BfsResult) (id : String) (d : Nat) (p : List String) (rest : List QEntry)
    (hinv : Inv edges nodeId st ((id, d, p) :: rest))
    (hskip : id ∈ st.visited ∨ maxDepth < d) : id ∈ st.visited := by
  rcases hskip with h | h
  · exact h
  · by_contra hni
    have h1 : st.visited.length + 1 ≤ (idsF edges nodeId).card :=
      visited_succ_le_card edges nodeId st.visited id hinv.nodup hinv.vis_ids
        (hinv.q_ids (id, d, p) (List.mem_cons_self _ _)) hni
    have h2 : d ≤ st.visited.length + 1 :=
      hinv.q_depth (id, d, p) (List.mem_cons_self _ _)
    omega

theorem inv_fresh (edges : List GEdge) (nodeId : String) (maxDepth : Nat)
    (hdepth : (idsF edges nodeId).card ≤ maxDepth)
    (st : BfsResult) (id : String) (d : Nat) (p : List String) (rest : List QEntry)
    (hinv : Inv edges nodeId st ((id, d, p) :: rest))
    (hni : id ∉ st.visited) (hdle : d ≤ maxDepth) :
    Inv edges nodeId (visitState nodeId st id d p)
      (if d < maxDepth then
        rest ++ pushedEntries edges (visitState nodeId st id d p) id d p
      else rest) := by
  have hids : id ∈ idsF edges nodeId := hinv.q_ids (id, d, p) (List.mem_cons_self _ _)
  have hreachid : reaches edges nodeId id := hinv.q_reach (id, d, p) (List.mem_cons_self _ _)
  have hdV : d ≤ st.visited.length + 1 := hinv.q_depth (id, d, p) (List.mem_cons_self _ _)
  have hv1 : (visitState nodeId st id d p).visited = id :: st.visited := rfl
  have hnodup1 : (visitState nodeId st id d p).visited.Nodup :=
    List.nodup_cons.mpr ⟨hni, hinv.nodup⟩
  have hvis1 : ∀ w ∈ (visitState nodeId st id d p).visited, w ∈ idsF edges nodeId := by
    intro w hw
    rcases List.mem_cons.mp hw with h | h
    · rw [h]; exact hids
    · exact hinv.vis_ids w h
  have hvr1 : ∀ w ∈ (visitState nodeId st id d p).visited, reaches edges nodeId w := by
    intro w hw
    rcases List.mem_cons.mp hw with h | h
    · rw [h]; exact hreachid
    · exact hinv.vis_reach w h
  have hconn1 : ∀ w, w ∈ (visitState nodeId st id d p).connectedNodeIds ↔
      (w ∈ (visitState nodeId st id d p).visited ∧ w ≠ nodeId) := by
    intro w
    show w ∈ (if id = nodeId then st.connectedNodeIds else st.connectedNodeIds ++ [id]) ↔
      (w ∈ id :: st.visited ∧ w ≠ nodeId)
    by_cases hidn : id = nodeId
    · rw [if_pos hidn]
      subst hidn
      rw [hinv.conn w]
      constructor
      · rintro ⟨h1, h2⟩
        exact ⟨List.mem_cons_of_mem _ h1, h2⟩
      · rintro ⟨h1, h2⟩
        rcases List.mem_cons.mp h1 with h | h
        · exact absurd h h2
        · exact ⟨h, h2⟩
    · rw [if_neg hidn]
      constructor
      · intro h1
        rcases List.mem_append.mp h1 with h | h
        · obtain ⟨h2, h3⟩ := (hinv.conn w).mp h
          exact ⟨List.mem_cons_of_mem _ h2, h3⟩
        · have hw : w = id := by simpa using h
          subst hw
          exact ⟨List.mem_cons_self _ _, hidn⟩
      · rintro ⟨h1, h2⟩
        rcases List.mem_cons.mp h1 with h | h
        · subst h
          exact List.mem_append_right _ (by simp)
        · exact List.mem_append_left _ ((hinv.conn w).mpr ⟨h, h2⟩)
  have horig1 : ∀ (Q : List QEntry), (∀ q ∈ rest, q ∈ Q) →
      nodeId ∈ (visitState nodeId st id d p).visited ∨ ∃ q ∈ Q, q.1 = nodeId := by
    intro Q hQ
    rcases hinv.origin with h | ⟨q, hq, hq1⟩
    · exact Or.inl (List.mem_cons_of_mem _ h)
    · rcases List.mem_cons.mp hq with hq' | hq'
      · left
        subst hq'
        have hidn : id = nodeId := hq1
        rw [hv1, ← hidn]
        exact List.mem_cons_self _ _
      · exact Or.inr ⟨q, hQ q hq', hq1⟩
  by_cases hd : d < maxDepth
  · rw [if_pos hd]
    refine ⟨hnodup1, hvis1, ?_, ?_, hvr1, ?_, ?_, ?_, hconn1⟩
    · intro q hq
      rcases List.mem_append.mp hq with h | h
      · exact hinv.q_ids q (List.mem_cons_of_mem _ h)
      · obtain ⟨⟨e, he, hcase⟩, _⟩ := pushed_spec edges _ id d p q h
        rcases hcase with ⟨_, h1⟩ | ⟨_, h1⟩
        · rw [h1]; exact (mem_idsF_of_edge edges nodeId e he).2
        · rw [h1]; exact (mem_idsF_of_edge edges nodeId e he).1
    · intro q hq
      rw [hv1, List.length_cons]
      rcases List.mem_append.mp hq with h | h
      · have := hinv.q_depth q (List.mem_cons_of_mem _ h)
        omega
      · have h2 := (pushed_spec edges _ id d p q h).2
        omega
    · intro q hq
      rcases List.mem_append.mp hq with h | h
      · exact hinv.q_reach q (List.mem_cons_of_mem _ h)
      · obtain ⟨⟨e, he, hcase⟩, _⟩ := pushed_spec edges _ id d p q h
        rcases hcase with ⟨h0, h1⟩ | ⟨h0, h1⟩
        · rw [h1]
          exact Relation.ReflTransGen.tail hreachid ⟨e, he, Or.inl ⟨h0, rfl⟩⟩
        · rw [h1]
          exact Relation.ReflTransGen.tail hreachid ⟨e, he, Or.inr ⟨h0, rfl⟩⟩
    · intro u hu v hstep
      rcases List.mem_cons.mp hu with hu' | hu'
      · subst hu'
        by_cases hv : v ∈ (visitState nodeId st u d p).visited
        · exact Or.inl hv
        · obtain ⟨e, he, hcase⟩ := hstep
          rcases hcase with ⟨h0, h1⟩ | ⟨h0, h1⟩
          · right
            have ht : e.target ∉ (visitState nodeId st u d p).visited := by
              rw [h1]; exact hv
            obtain ⟨q, hq, hq1⟩ :=
              pushed_out edges (visitState nodeId st u d p) u d p e he h0 ht
            exact ⟨q, List.mem_append_right _ hq, by rw [hq1, h1]⟩
          · right
            have ht : e.source ∉ (visitState nodeId st u d p).visited := by
              rw [h1]; exact hv
            obtain ⟨q, hq, hq1⟩ :=
              pushed_in edges (visitState nodeId st u d p) u d p e he h0 ht
            exact ⟨q, List.mem_append_right _ hq, by rw [hq1, h1]⟩
      · rcases hinv.closure u hu' v hstep with h | ⟨q, hq, hq1⟩
        · exact Or.inl (List.mem_cons_of_mem _ h)
        · rcases List.mem_cons.mp hq with hq' | hq'
          · left
            subst hq'
            have hidv : id = v := hq1
            rw [hv1, ← hidv]
            exact List.mem_cons_self _ _
          · exact Or.inr ⟨q, List.mem_append_left _ hq', hq1⟩
    · exact horig1 _ (fun q hq => List.mem_append_left _ hq)
  · rw [if_neg hd]
    have hdeq : d = maxDepth := le_antisymm hdle (Nat.le_of_not_lt hd)
    have hsat : ∀ v ∈ idsF edges nodeId, v ∈ (visitState nodeId st id d p).visited := by
      apply visited_saturated edges nodeId _ hnodup1 hvis1
      rw [hv1, List.length_cons]
      omega
    refine ⟨hnodup1, hvis1, ?_, ?_, hvr1, ?_, ?_, ?_, hconn1⟩
    · exact fun q hq => hinv.q_ids q (List.mem_cons_of_mem _ hq)
    · intro q hq
      rw [hv1, List.length_cons]
      have := hinv.q_depth q (List.mem_cons_of_mem _ hq)
      omega
    · exact fun q hq => hinv.q_reach q (List.mem_cons_of_mem _ hq)
    · intro u hu v hstep
      rcases List.mem_cons.mp hu with hu' | hu'
      · subst hu'
        obtain ⟨e, he, hcase⟩ := hstep
        rcases hcase with ⟨_, h1⟩ | ⟨_, h1⟩
        · exact Or.inl (hsat v (h1 ▸ (mem_idsF_of_edge edges nodeId e he).2))
        · exact Or.inl (hsat v (h1 ▸ (mem_idsF_of_edge edges nodeId e he).1))
      · rcases hinv.closure u hu' v hstep with h | ⟨q, hq, hq1⟩
        · exact Or.inl (List.mem_cons_of_mem _ h)
        · rcases List.mem_cons.mp hq with hq' | hq'
          · left
            subst hq'
            have hidv : id = v := hq1
            rw [hv1, ← hidv]
            exact List.mem_cons_self _ _
          · exact Or.inr ⟨q, hq', hq1⟩
    · exact horig1 _ (fun q hq => hq)

/-- The BFS engine: run with enough fuel from any state satisfying the
invariant, the loop drains its queue and produces a sound, undirected-step
closed visited set containing the origin. -/
theorem bfsAux_post (edges : List GEdge) (nodeId : String) (maxDepth : Nat)
    (hdepth : (idsF edges nodeId).card ≤ maxDepth) :
    ∀ (fuel : Nat) (st : BfsResult) (queue : List QEntry),
      ((idsF edges nodeId).card - st.visited.length) * (2 * edges.length + 1)
          + queue.length ≤ fuel →
      Inv edges nodeId st queue →
      Post edges nodeId st (bfsAux edges nodeId maxDepth fuel st queue) := by
  intro fuel
  induction fuel with
  | zero =>
    intro st queue hfuel hinv
    have hq : queue = [] := List.eq_nil_of_length_eq_zero (by omega)
    subst hq
    rw [bfsAux_nil]
    exact post_of_inv_nil edges nodeId st hinv
  | succ fuel ih =>
    intro st queue hfuel hinv
    cases queue with
    | nil =>
      rw [bfsAux_nil]
      exact post_of_inv_nil edges nodeId st hinv
    | cons q rest =>
      obtain ⟨id, d, p⟩ := q
      rw [bfsAux_cons]
      by_cases hskip : id ∈ st.visited ∨ maxDepth < d
      · rw [if_pos hskip]
        have hid : id ∈ st.visited :=
          stale_mem edges nodeId maxDepth hdepth st id d p rest hinv hskip
        refine ih st rest ?_ (inv_stale edges nodeId st id d p rest hinv hid)
        simp only [List.length_cons] at hfuel
        omega
      · rw [if_neg hskip]
        push_neg at hskip
        obtain ⟨hni, hdle⟩ := hskip
        have hinv1 := inv_fresh edges nodeId maxDepth hdepth st id d p rest hinv hni hdle
        have hm : ((idsF edges nodeId).card - (visitState nodeId st id d p).visited.length)
            * (2 * edges.length + 1)
            + (if d < maxDepth then
                rest ++ pushedEntries edges (visitState nodeId st id d p) id d p
              else rest).length ≤ fuel := by
          have hcard1 : st.visited.length + 1 ≤ (idsF edges nodeId).card :=
            visited_succ_le_card edges nodeId st.visited id hinv.nodup hinv.vis_ids
              (hinv.q_ids (id, d, p) (List.mem_cons_self _ _)) hni
          have hqlen : (if d < maxDepth then
              rest ++ pushedEntries edges (visitState nodeId st id d p) id d p
            else rest).length ≤ rest.length + 2 * edges.length := by
            split
            · rw [List.length_append]
              have := pushed_length_le edges (visitState nodeId st id d p) id d p
              omega
            · omega
          have hv : (visitState nodeId st id d p).visited.length = st.visited.length + 1 := by
            show (id :: st.visited).length = st.visited.length + 1
            exact List.length_cons _ _
          rw [hv]
          have hsub : (idsF edges nodeId).card - st.visited.length
              = ((idsF edges nodeId).card - (st.visited.length + 1)) + 1 := by omega
          rw [hsub, add_one_mul] at hfuel
          simp only [List.length_cons] at hfuel
          omega
        have hpost := ih (visitState nodeId st id d p)
          (if d < maxDepth then
            rest ++ pushedEntries edges (visitState nodeId st id d p) id d p
          else rest) hm hinv1
        exact ⟨fun w hw => hpost.mono w (List.mem_cons_of_mem _ hw), hpost.sound,
          hpost.closed, hpost.origin, hpost.conn⟩

/-- `getConnectedNodes` satisfies the BFS postcondition whenever `maxDepth`
is at least the number of distinct ids the worklist can mention. -/
theorem getConnectedNodes_post (edges : List GEdge) (nodeId : String) (maxDepth : Nat)
    (hdepth : (idsF edges nodeId).card ≤ maxDepth) :
    Post edges nodeId ⟨[], [], [], []⟩ (getConnectedNodes edges nodeId maxDepth) := by
  have hfuel : ((idsF edges nodeId).card
      - (⟨[], [], [], []⟩ : BfsResult).visited.length) * (2 * edges.length + 1)
      + ([((nodeId, 0, []) : QEntry)] : List QEntry).length ≤ bfsFuel edges nodeId := by
    have h1 : (idsF edges nodeId).card ≤ (allIds edges nodeId).length :=
      List.toFinset_card_le _
    have h2 : (idsF edges nodeId).card * (2 * edges.length + 1)
        ≤ (allIds edges nodeId).length * (2 * edges.length + 1) :=
      Nat.mul_le_mul_right _ h1
    show ((idsF edges nodeId).card - ([] : List String).length) * (2 * edges.length + 1)
      + (1 : Nat) ≤ (allIds edges nodeId).length * (2 * edges.length + 1) + 1
    simp only [List.length_nil, Nat.sub_zero]
    omega
  have hinv : Inv edges nodeId ⟨[], [], [], []⟩ [(nodeId, 0, [])] := by
    refine ⟨List.nodup_nil, ?_, ?_, ?_, ?_, ?_, ?_, ?_, ?_⟩
    · intro w hw; cases hw
    · intro q hq
      rw [List.mem_singleton] at hq
      subst hq
      exact mem_idsF_origin edges nodeId
    · intro q hq
      rw [List.mem_singleton] at hq
      subst hq
      exact Nat.zero_le _
    · intro w hw; cases hw
    · intro q hq
      rw [List.mem_singleton] at hq
      subst hq
      exact Relation.ReflTransGen.refl
    · intro u hu v hstep; cases hu
    · exact Or.inr ⟨(nodeId, 0, []), List.mem_singleton.mpr rfl, rfl⟩
    · intro w
      constructor
      · intro h; cases h
      · rintro ⟨h, _⟩; cases h
  exact bfsAux_post edges nodeId maxDepth hdepth (bfsFuel edges nodeId)
    ⟨[], [], [], []⟩ [(nodeId, 0, [])] hfuel hinv

/-- At `maxDepth = 0` the loop visits only the origin and records nothing. -/
theorem getConnectedNodes_depth_zero (edges : List GEdge) (nodeId : String) :
    (getConnectedNodes edges nodeId 0).connectedNodeIds = [] := by
  show (bfsAux edges nodeId 0 (bfsFuel edges nodeId) ⟨[], [], [], []⟩
    [(nodeId, 0, [])]).connectedNodeIds = []
  rw [show bfsFuel edges nodeId
    = (allIds edges nodeId).length * (2 * edges.length + 1) + 1 from rfl]
  rw [bfsAux_cons]
  rw [if_neg (by simp)]
  rw [if_neg (Nat.lt_irrefl 0)]
  rw [bfsAux_nil]
  show (if nodeId = nodeId then ([] : List String) else [] ++ [nodeId]) = []
  rw [if_pos rfl]

end ConnectedNodes

open ConnectedNodes in
/-- **C3** (corrected).  For a well-formed graph — every edge endpoint is the
id of a graph node — with the origin among the node ids:
`getConnectedNodes(id, 0)` returns the empty result set, and for
`maxDepth ≥ nodes.length`, `getConnectedNodes(id, maxDepth)` returns exactly
the ids reachable from the origin over the union of outgoing and incoming
edges, with the origin itself excluded.  (Without the well-formedness
hypothesis the literal claim fails; see the counterexample.) -/
theorem connectedNodes_depth_zero_and_reachability
    (nodes : List GNode) (edges : List GEdge) (nodeId : String) (maxDepth : Nat)
    (hwf : ∀ e ∈ edges, e.source ∈ nodes.map GNode.id ∧ e.target ∈ nodes.map GNode.id)
    (horig : nodeId ∈ nodes.map GNode.id)
    (hdepth : nodes.length ≤ maxDepth) :
    (getConnectedNodes edges nodeId 0).connectedNodeIds = [] ∧
    ∀ w, (w ∈ (getConnectedNodes edges nodeId maxDepth).connectedNodeIds ↔
      (reaches edges nodeId w ∧ w ≠ nodeId)) := by
  refine ⟨getConnectedNodes_depth_zero edges nodeId, ?_⟩
  have hsub : idsF edges nodeId ⊆ (nodes.map GNode.id).toFinset := by
    intro w hw
    rw [List.mem_toFinset]
    have hw' : w ∈ allIds edges nodeId := List.mem_toFinset.mp hw
    rcases List.mem_cons.mp hw' with h | h
    · subst h
      exact horig
    · obtain ⟨e, he, hm⟩ := List.mem_flatMap.mp h
      rcases List.mem_cons.mp hm with h1 | h1
      · subst h1
        exact (hwf e he).1
      · have h2 : w = e.target := by simpa using h1
        subst h2
        exact (hwf e he).2
  have hcard : (idsF edges nodeId).card ≤ maxDepth := by
    have h1 := Finset.card_le_card hsub
    have h2 := List.toFinset_card_le (nodes.map GNode.id)
    have h3 : (nodes.map GNode.id).length = nodes.length := List.length_map _ _
    omega
  have hpost := getConnectedNodes_post edges nodeId maxDepth hcard
  have hback : ∀ w, reaches edges nodeId w →
      w ∈ (getConnectedNodes edges nodeId maxDepth).visited := by
    intro w hr
    have hr' : Relation.ReflTransGen (undirStep edges) nodeId w := hr
    clear hr
    induction hr' with
    | refl => exact hpost.origin
    | tail h1 h2 ih => exact hpost.closed _ ih _ h2
  intro w
  rw [hpost.conn w]
  constructor
  · rintro ⟨hv, hne⟩
    exact ⟨hpost.sound w hv, hne⟩
  · rintro ⟨hr, hne⟩
    exact ⟨hback w hr, hne⟩

/-- Counterexample to the literal C3 claim: the graph has the single node
`A`, but its edge list dangles on to ids `X` and `Y` that are not nodes.
With `maxDepth = nodes.length = 1` the id `Y` is reachable from `A`
ignoring direction yet absent from the result, and the result even contains
the non-node id `X`. -/
theorem connectedNodes_depth_bound_counterexample :
    "A" ∈ Examples.exC3nodes.map ConnectedNodes.GNode.id ∧
    Examples.exC3nodes.length = 1 ∧
    ConnectedNodes.reaches Examples.exC3edges "A" "Y" ∧
    "Y" ∉ (ConnectedNodes.getConnectedNodes Examples.exC3edges "A"
      Examples.exC3nodes.length).connectedNodeIds ∧
    "X" ∈ (ConnectedNodes.getConnectedNodes Examples.exC3edges "A"
      Examples.exC3nodes.length).connectedNodeIds ∧
    "X" ∉ Examples.exC3nodes.map ConnectedNodes.GNode.id := by
  refine ⟨by decide, by decide, ?_, by decide, by decide, by decide⟩
  have h1 : ConnectedNodes.undirStep Examples.exC3edges "A" "X" :=
    ⟨⟨"A", "X", some "calls"⟩, by decide, Or.inl ⟨rfl, rfl⟩⟩
  have h2 : ConnectedNodes.undirStep Examples.exC3edges "X" "Y" :=
    ⟨⟨"X", "Y", some "calls"⟩, by decide, Or.inl ⟨rfl, rfl⟩⟩
  exact Relation.ReflTransGen.tail (Relation.ReflTransGen.single h1) h2

/-- Witness for C3 on a well-formed three-node graph: depth 0 yields the
empty result, and at `maxDepth = 3 ≥ nodes.length` the node `C` — reachable
from `A` only by crossing the edge `C → B` backwards — is reported. -/
theorem connectedNodes_reachability_witness :
    (ConnectedNodes.getConnectedNodes Examples.exC3Wedges "A" 0).connectedNodeIds = [] ∧
    "C" ∈ (ConnectedNodes.getConnectedNodes Examples.exC3Wedges "A" 3).connectedNodeIds := by
  have h := connectedNodes_depth_zero_and_reachability Examples.exC3Wnodes
    Examples.exC3Wedges "A" 3 (by decide) (by decide) (by decide)
  refine ⟨h.1, ?_⟩
  refine (h.2 "C").mpr ⟨?_, by decide⟩
  have h1 : ConnectedNodes.undirStep Examples.exC3Wedges "A" "B" :=
    ⟨⟨"A", "B", some "calls"⟩, by decide, Or.inl ⟨rfl, rfl⟩⟩
  have h2 : ConnectedNodes.undirStep Examples.exC3Wedges "B" "C" :=
    ⟨⟨"C", "B", some "calls"⟩, by decide, Or.inr ⟨rfl, rfl⟩⟩
  exact Relation.ReflTransGen.tail (Relation.ReflTransGen.single h1) h2

/-! ## C9 — worker metric lemmas -/

namespace Worker

theorem find?_map_set (k k' : String) (v : Nat) (m : List (String × Nat)) :
    ((m.map (fun p => if p.1 == k then (k, v) else p)).find? (fun p => p.1 == k')) =
      if k' = k then (m.find? (fun p => p.1 == k)).map (fun _ => (k, v))
      else m.find? (fun p => p.1 == k') := by
  induction m with
  | nil => split <;> rfl
  | cons a m ih =>
    simp only [List.map_cons]
    by_cases hak : (a.1 == k) = true
    · rw [if_pos hak]
      have haeq : a.1 = k := by simpa using hak
      by_cases hkk : k' = k
      · subst hkk
        rw [if_pos rfl]
        rw [show ((k', v) :: m.map (fun p => if p.1 == k' then (k', v) else p)).find?
            (fun p => p.1 == k') = some (k', v) from List.find?_cons_of_pos _ (by simp)]
        rw [show (a :: m).find? (fun p => p.1 == k') = some a from
          List.find?_cons_of_pos _ hak]
        rfl
      · rw [if_neg hkk]
        rw [show ((k, v) :: m.map (fun p => if p.1 == k then (k, v) else p)).find?
            (fun p => p.1 == k')
            = (m.map (fun p => if p.1 == k then (k, v) else p)).find? (fun p => p.1 == k')
          from List.find?_cons_of_neg _ (by simpa using Ne.symm hkk)]
        rw [ih, if_neg hkk]
        rw [show (a :: m).find? (fun p => p.1 == k') = m.find? (fun p => p.1 == k') from
          List.find?_cons_of_neg _ (by rw [haeq]; simpa using Ne.symm hkk)]
    · rw [if_neg hak]
      by_cases hak' : (a.1 == k') = true
      · rw [show (a :: m.map (fun p => if p.1 == k then (k, v) else p)).find?
            (fun p => p.1 == k') = some a from List.find?_cons_of_pos _ hak']
        have hkk : k' ≠ k := by
          intro h
          rw [h] at hak'
          exact hak hak'
        rw [if_neg hkk]
        rw [show (a :: m).find? (fun p => p.1 == k') = some a from
          List.find?_cons_of_pos _ hak']
      · rw [show (a :: m.map (fun p => if p.1 == k then (k, v) else p)).find?
            (fun p => p.1 == k')
            = (m.map (fun p => if p.1 == k then (k, v) else p)).find? (fun p => p.1 == k')
          from List.find?_cons_of_neg _ hak']
        rw [ih]
        by_cases hkk : k' = k
        · rw [if_pos hkk, if_pos hkk]
          rw [show (a :: m).find? (fun p => p.1 == k) = m.find? (fun p => p.1 == k) from
            List.find?_cons_of_neg _ hak]
        · rw [if_neg hkk, if_neg hkk]
          rw [show (a :: m).find? (fun p => p.1 == k') = m.find? (fun p => p.1 == k') from
            List.find?_cons_of_neg _ hak']

theorem find?_setAssoc (m : List (String × Nat)) (k k' : String) (v : Nat) :
    (setAssoc m k v).find? (fun p => p.1 == k') =
      if k' = k then some (k, v) else m.find? (fun p => p.1 == k') := by
  unfold setAssoc
  by_cases hany : (m.any (fun p => p.1 == k)) = true
  · rw [if_pos hany, find?_map_set]
    by_cases hkk : k' = k
    · rw [if_pos hkk, if_pos hkk]
      cases hf : m.find? (fun p => p.1 == k) with
      | some p => rfl
      | none =>
        exfalso
        obtain ⟨p, hp, hpk⟩ := List.any_eq_true.mp hany
        exact (List.find?_eq_none.mp hf p hp) hpk
    · rw [if_neg hkk, if_neg hkk]
  · rw [if_neg hany]
    by_cases hkk : k' = k
    · rw [if_pos hkk]
      subst hkk
      rw [List.find?_append]
      have hnone : m.find? (fun p => p.1 == k') = none := by
        rw [List.find?_eq_none]
        intro p hp hpk
        exact hany (List.any_eq_true.mpr ⟨p, hp, hpk⟩)
      rw [hnone]
      rw [show (((k', v) : String × Nat) :: []).find? (fun p => p.1 == k')
          = some (k', v) from List.find?_cons_of_pos _ (by simp)]
      rfl
    · rw [if_neg hkk, List.find?_append]
      have h2 : ([(k, v)] : List (String × Nat)).find? (fun p => p.1 == k') = none := by
        rw [show (((k, v) : String × Nat) :: []).find? (fun p => p.1 == k')
            = ([] : List (String × Nat)).find? (fun p => p.1 == k') from
          List.find?_cons_of_neg _ (by simpa using Ne.symm hkk)]
        rfl
      rw [h2]
      exact Option.or_none

theorem lookupNat_setAssoc (m : List (String × Nat)) (k k' : String) (v : Nat) :
    lookupNat (setAssoc m k v) k' = if k' = k then v else lookupNat m k' := by
  unfold lookupNat
  rw [find?_setAssoc]
  by_cases hkk : k' = k
  · rw [if_pos hkk, if_pos hkk]
    rfl
  · rw [if_neg hkk, if_neg hkk]

theorem mem_setAssoc {α : Type} (m : List (String × α)) (k : String) (v : α)
    (p : String × α) (hp : p ∈ setAssoc m k v) : p = (k, v) ∨ p ∈ m := by
  unfold setAssoc at hp
  split at hp
  · obtain ⟨q, hq, hq2⟩ := List.mem_map.mp hp
    by_cases h : (q.1 == k) = true
    · rw [if_pos h] at hq2
      exact Or.inl hq2.symm
    · rw [if_neg h] at hq2
      exact Or.inr (hq2 ▸ hq)
  · rcases List.mem_append.mp hp with h | h
    · exact Or.inr h
    · exact Or.inl (List.mem_singleton.mp h)

theorem lookupNat_zero_of_all_zero (m : List (String × Nat))
    (h : ∀ p ∈ m, p.2 = 0) (id : String) : lookupNat m id = 0 := by
  unfold lookupNat
  cases hf : m.find? (fun p => p.1 == id) with
  | none => rfl
  | some p =>
    have hm := List.mem_of_find?_eq_some hf
    simp [h p hm]

theorem init_fold_all_zero : ∀ (nodes : List WNode)
    (acc : List (String × Nat) × List (String × Nat) × List (String × List String)),
    (∀ p ∈ acc.1, p.2 = 0) → (∀ p ∈ acc.2.1, p.2 = 0) →
    (∀ p ∈ (nodes.foldl initStep acc).1, p.2 = 0) ∧
      (∀ p ∈ (nodes.foldl initStep acc).2.1, p.2 = 0) := by
  intro nodes
  induction nodes with
  | nil => exact fun acc h1 h2 => ⟨h1, h2⟩
  | cons n ns ih =>
    intro acc h1 h2
    rw [List.foldl_cons]
    refine ih (initStep acc n) ?_ ?_
    · intro p hp
      rcases mem_setAssoc acc.1 n.id 0 p hp with h | h
      · rw [h]
      · exact h1 p h
    · intro p hp
      rcases mem_setAssoc acc.2.1 n.id 0 p hp with h | h
      · rw [h]
      · exact h2 p h

theorem lookup_degree_fold (edges : List WEdge) :
    ∀ (acc : List (String × Nat) × List (String × Nat) × List (String × List String))
      (id : String),
      lookupNat (edges.foldl degreeStep acc).1 id
          = lookupNat acc.1 id + edges.countP (fun e => e.target == id) ∧
      lookupNat (edges.foldl degreeStep acc).2.1 id
          = lookupNat acc.2.1 id + edges.countP (fun e => e.source == id) := by
  induction edges with
  | nil =>
    intro acc id
    constructor <;> simp
  | cons e es ih =>
    intro acc id
    rw [List.foldl_cons]
    obtain ⟨h1, h2⟩ := ih (degreeStep acc e) id
    constructor
    · rw [h1, List.countP_cons]
      rw [show (degreeStep acc e).1
          = setAssoc acc.1 e.target (lookupNat acc.1 e.target + 1) from rfl]
      rw [lookupNat_setAssoc]
      by_cases hid : id = e.target
      · rw [if_pos hid, hid]
        rw [show (e.target == e.target) = true from by simp]
        simp only [if_true]
        omega
      · rw [if_neg hid]
        rw [show (e.target == id) = false from by simpa using Ne.symm hid]
        simp only [Bool.false_eq_true, if_false]
        omega
    · rw [h2, List.countP_cons]
      rw [show (degreeStep acc e).2.1
          = setAssoc acc.2.1 e.source (lookupNat acc.2.1 e.source + 1) from rfl]
      rw [lookupNat_setAssoc]
      by_cases hid : id = e.source
      · rw [if_pos hid, hid]
        rw [show (e.source == e.source) = true from by simp]
        simp only [if_true]
        omega
      · rw [if_neg hid]
        rw [show (e.source == id) = false from by simpa using Ne.symm hid]
        simp only [Bool.false_eq_true, if_false]
        omega

/-- The final in-degree of any id counts every edge occurrence targeting
it, duplicates and self-loops included. -/
theorem lookup_inDegree (nodes : List WNode) (edges : List WEdge) (id : String) :
    lookupNat (degreeAndAdjacency nodes edges).1 id
      = edges.countP (fun e => e.target == id) := by
  have h := (lookup_degree_fold edges (initMaps nodes) id).1
  rw [show degreeAndAdjacency nodes edges = edges.foldl degreeStep (initMaps nodes) from rfl, h]
  have hz := init_fold_all_zero nodes ([], [], [])
    (by intro p hp; cases hp) (by intro p hp; cases hp)
  have h0 : lookupNat (initMaps nodes).1 id = 0 :=
    lookupNat_zero_of_all_zero _ hz.1 id
  rw [h0]
  omega

/-- The final out-degree of any id counts every edge occurrence sourced at
it, duplicates and self-loops included. -/
theorem lookup_outDegree (nodes : List WNode) (edges : List WEdge) (id : String) :
    lookupNat (degreeAndAdjacency nodes edges).2.1 id
      = edges.countP (fun e => e.source == id) := by
  have h := (lookup_degree_fold edges (initMaps nodes) id).2
  rw [show degreeAndAdjacency nodes edges = edges.foldl degreeStep (initMaps nodes) from rfl, h]
  have hz := init_fold_all_zero nodes ([], [], [])
    (by intro p hp; cases hp) (by intro p hp; cases hp)
  have h0 : lookupNat (initMaps nodes).2.1 id = 0 :=
    lookupNat_zero_of_all_zero _ hz.2 id
  rw [h0]
  omega

theorem exp_three_half_sq : Real.exp ((3:ℝ)/2) ^ (2:ℕ) = Real.exp 1 ^ (3:ℕ) := by
  rw [← Real.exp_nat_mul, ← Real.exp_nat_mul]
  congr 1
  norm_num

theorem exp_three_half_lt_five : Real.exp ((3:ℝ)/2) < 5 := by
  have h1 : Real.exp 1 ^ (3:ℕ) < 2.7182818286 ^ (3:ℕ) :=
    pow_lt_pow_left₀ Real.exp_one_lt_d9 (Real.exp_pos 1).le (by norm_num)
  have h2 : (2.7182818286 : ℝ) ^ (3:ℕ) < 5 ^ (2:ℕ) := by norm_num
  have h3 : Real.exp ((3:ℝ)/2) ^ (2:ℕ) < 5 ^ (2:ℕ) := by
    rw [exp_three_half_sq]
    linarith
  exact lt_of_pow_lt_pow_left₀ 2 (by norm_num) h3

theorem four_le_exp_three_half : (4:ℝ) ≤ Real.exp ((3:ℝ)/2) := by
  have h1 : (2.7182818283 : ℝ) ^ (3:ℕ) < Real.exp 1 ^ (3:ℕ) :=
    pow_lt_pow_left₀ Real.exp_one_gt_d9 (by norm_num) (by norm_num)
  have h2 : (4:ℝ) ^ (2:ℕ) ≤ (2.7182818283 : ℝ) ^ (3:ℕ) := by norm_num
  have h3 : (4:ℝ) ^ (2:ℕ) ≤ Real.exp ((3:ℝ)/2) ^ (2:ℕ) := by
    rw [exp_three_half_sq]
    linarith
  exact le_of_pow_le_pow_left₀ (by norm_num) (Real.exp_pos _).le h3

theorem exp_half_lt_two : Real.exp ((1:ℝ)/2) < 2 := by
  have hsq : Real.exp ((1:ℝ)/2) ^ (2:ℕ) = Real.exp 1 := by
    rw [← Real.exp_nat_mul]
    congr 1
    norm_num
  have h3 : Real.exp ((1:ℝ)/2) ^ (2:ℕ) < 2 ^ (2:ℕ) := by
    rw [hsq]
    have := Real.exp_one_lt_d9
    norm_num
    linarith
  exact lt_of_pow_lt_pow_left₀ 2 (by norm_num) h3

theorem one_lt_exp_half : (1:ℝ) < Real.exp ((1:ℝ)/2) := by
  rw [show (1:ℝ) = Real.exp 0 from Real.exp_zero.symm]
  exact Real.exp_lt_exp.mpr (by norm_num)

theorem score_gt15_iff (n : Nat) :
    (15 < Real.log ((n:ℝ) + 1) * 10) ↔ 4 ≤ n := by
  have hpos : (0:ℝ) < (n:ℝ) + 1 := by positivity
  constructor
  · intro h
    have hlog : (3:ℝ)/2 < Real.log ((n:ℝ) + 1) := by linarith
    have hexp : Real.exp ((3:ℝ)/2) < (n:ℝ) + 1 := (Real.lt_log_iff_exp_lt hpos).mp hlog
    have h4 : (4:ℝ) < (n:ℝ) + 1 := lt_of_le_of_lt four_le_exp_three_half hexp
    have h5 : (4:ℕ) < n + 1 := by exact_mod_cast h4
    omega
  · intro h
    have h5 : (5:ℝ) ≤ (n:ℝ) + 1 := by
      have h6 : (5:ℕ) ≤ n + 1 := by omega
      exact_mod_cast h6
    have hexp : Real.exp ((3:ℝ)/2) < (n:ℝ) + 1 := lt_of_lt_of_le exp_three_half_lt_five h5
    have hlog : (3:ℝ)/2 < Real.log ((n:ℝ) + 1) := (Real.lt_log_iff_exp_lt hpos).mpr hexp
    linarith

theorem score_gt5_iff (n : Nat) :
    (5 < Real.log ((n:ℝ) + 1) * 10) ↔ 1 ≤ n := by
  have hpos : (0:ℝ) < (n:ℝ) + 1 := by positivity
  constructor
  · intro h
    have hlog : (1:ℝ)/2 < Real.log ((n:ℝ) + 1) := by linarith
    have hexp : Real.exp ((1:ℝ)/2) < (n:ℝ) + 1 := (Real.lt_log_iff_exp_lt hpos).mp hlog
    have h1 : (1:ℝ) < (n:ℝ) + 1 := lt_trans one_lt_exp_half hexp
    have h2 : (0:ℝ) < (n:ℝ) := by linarith
    have h3 : 0 < n := by exact_mod_cast h2
    omega
  · intro h
    have h2 : (2:ℝ) ≤ (n:ℝ) + 1 := by
      have h6 : (2:ℕ) ≤ n + 1 := by omega
      exact_mod_cast h6
    have hexp : Real.exp ((1:ℝ)/2) < (n:ℝ) + 1 := lt_of_lt_of_le exp_half_lt_two h2
    have hlog : (1:ℝ)/2 < Real.log ((n:ℝ) + 1) := (Real.lt_log_iff_exp_lt hpos).mpr hexp
    linarith

/-- The render priority of an enhanced node in terms of its raw connection
count. -/
theorem renderPriority_iff (nodes : List WNode) (edges : List WEdge) (maxDepth : Nat)
    (node : WNode) :
    ((enhanceNode nodes edges maxDepth node).renderPriority = WPrio.high ↔
      4 ≤ (enhanceNode nodes edges maxDepth node).totalConnections) ∧
    ((enhanceNode nodes edges maxDepth node).renderPriority = WPrio.medium ↔
      (1 ≤ (enhanceNode nodes edges maxDepth node).totalConnections ∧
        (enhanceNode nodes edges maxDepth node).totalConnections ≤ 3)) ∧
    ((enhanceNode nodes edges maxDepth node).renderPriority = WPrio.low ↔
      (enhanceNode nodes edges maxDepth node).totalConnections = 0) := by
  have hprio : (enhanceNode nodes edges maxDepth node).renderPriority =
      (if 15 < Real.log (((enhanceNode nodes edges maxDepth node).totalConnections : ℝ) + 1) * 10
        then WPrio.high
       else if 5 < Real.log
          (((enhanceNode nodes edges maxDepth node).totalConnections : ℝ) + 1) * 10
        then WPrio.medium
       else WPrio.low) := rfl
  rw [hprio]
  generalize (enhanceNode nodes edges maxDepth node).totalConnections = n
  refine ⟨?_, ?_, ?_⟩
  · by_cases h15 : 15 < Real.log ((n:ℝ) + 1) * 10
    · rw [if_pos h15]
      constructor
      · intro _
        exact (score_gt15_iff n).mp h15
      · intro _
        rfl
    · rw [if_neg h15]
      have h4 : ¬ 4 ≤ n := fun hc => h15 ((score_gt15_iff n).mpr hc)
      constructor
      · intro hc
        split at hc
        · exact absurd hc (by decide)
        · exact absurd hc (by decide)
      · intro hc
        exact absurd hc h4
  · by_cases h15 : 15 < Real.log ((n:ℝ) + 1) * 10
    · rw [if_pos h15]
      have h4 : 4 ≤ n := (score_gt15_iff n).mp h15
      constructor
      · intro hc
        exact absurd hc (by decide)
      · rintro ⟨_, h3⟩
        omega
    · rw [if_neg h15]
      have h4 : ¬ 4 ≤ n := fun hc => h15 ((score_gt15_iff n).mpr hc)
      by_cases h5 : 5 < Real.log ((n:ℝ) + 1) * 10
      · rw [if_pos h5]
        have h1 : 1 ≤ n := (score_gt5_iff n).mp h5
        constructor
        · intro _
          exact ⟨h1, by omega⟩
        · intro _
          rfl
      · rw [if_neg h5]
        have h1 : ¬ 1 ≤ n := fun hc => h5 ((score_gt5_iff n).mpr hc)
        constructor
        · intro hc
          exact absurd hc (by decide)
        · rintro ⟨hc, _⟩
          exact absurd hc h1
  · by_cases h15 : 15 < Real.log ((n:ℝ) + 1) * 10
    · rw [if_pos h15]
      have h4 : 4 ≤ n := (score_gt15_iff n).mp h15
      constructor
      · intro hc
        exact absurd hc (by decide)
      · intro hc
        omega
    · rw [if_neg h15]
      by_cases h5 : 5 < Real.log ((n:ℝ) + 1) * 10
      · rw [if_pos h5]
        have h1 : 1 ≤ n := (score_gt5_iff n).mp h5
        constructor
        · intro hc
          exact absurd hc (by decide)
        · intro hc
          omega
      · rw [if_neg h5]
        have h1 : ¬ 1 ≤ n := fun hc => h5 ((score_gt5_iff n).mpr hc)
        constructor
        · intro _
          omega
        · intro _
          rfl

end Worker

/-- **C9** (confirmed).  The worker computes, for every node,
`totalConnections = inDegree + outDegree` with the degrees counting every
edge occurrence (duplicates and self-loops included),
`importanceScore = ln(totalConnections + 1) × 10`, and a render priority of
`high` exactly when the score exceeds 15 (equivalently
`totalConnections ≥ 4`), `medium` exactly when the score is in `(5, 15]`
(equivalently `1 ≤ totalConnections ≤ 3`), and `low` exactly when
`totalConnections = 0`. -/
theorem node_metrics_spec (nodes : List Worker.WNode) (edges : List Worker.WEdge)
    (maxDepth : Nat) (n : Worker.WNode) :
    Worker.calculateNodeMetrics nodes edges maxDepth =
      nodes.map (Worker.enhanceNode nodes edges maxDepth) ∧
    (Worker.enhanceNode nodes edges maxDepth n).inDegree =
      edges.countP (fun e => e.target == n.id) ∧
    (Worker.enhanceNode nodes edges maxDepth n).outDegree =
      edges.countP (fun e => e.source == n.id) ∧
    (Worker.enhanceNode nodes edges maxDepth n).totalConnections =
      (Worker.enhanceNode nodes edges maxDepth n).inDegree
        + (Worker.enhanceNode nodes edges maxDepth n).outDegree ∧
    (Worker.enhanceNode nodes edges maxDepth n).importanceScore =
      Real.log (((Worker.enhanceNode nodes edges maxDepth n).totalConnections : ℝ) + 1) * 10 ∧
    ((Worker.enhanceNode nodes edges maxDepth n).renderPriority = Worker.WPrio.high ↔
      15 < (Worker.enhanceNode nodes edges maxDepth n).importanceScore) ∧
    ((Worker.enhanceNode nodes edges maxDepth n).renderPriority = Worker.WPrio.high ↔
      4 ≤ (Worker.enhanceNode nodes edges maxDepth n).totalConnections) ∧
    ((Worker.enhanceNode nodes edges maxDepth n).renderPriority = Worker.WPrio.medium ↔
      (5 < (Worker.enhanceNode nodes edges maxDepth n).importanceScore ∧
        (Worker.enhanceNode nodes edges maxDepth n).importanceScore ≤ 15)) ∧
    ((Worker.enhanceNode nodes edges maxDepth n).renderPriority = Worker.WPrio.medium ↔
      (1 ≤ (Worker.enhanceNode nodes edges maxDepth n).totalConnections ∧
        (Worker.enhanceNode nodes edges maxDepth n).totalConnections ≤ 3)) ∧
    ((Worker.enhanceNode nodes edges maxDepth n).renderPriority = Worker.WPrio.low ↔
      (Worker.enhanceNode nodes edges maxDepth n).totalConnections = 0) := by
  obtain ⟨hhigh, hmed, hlow⟩ := Worker.renderPriority_iff nodes edges maxDepth n
  have hscore : (Worker.enhanceNode nodes edges maxDepth n).importanceScore =
      Real.log (((Worker.enhanceNode nodes edges maxDepth n).totalConnections : ℝ) + 1) * 10 :=
    rfl
  have hhigh2 : (Worker.enhanceNode nodes edges maxDepth n).renderPriority = Worker.WPrio.high ↔
      15 < (Worker.enhanceNode nodes edges maxDepth n).importanceScore := by
    rw [hscore, Worker.score_gt15_iff]
    exact hhigh
  have hmed2 : (Worker.enhanceNode nodes edges maxDepth n).renderPriority = Worker.WPrio.medium ↔
      (5 < (Worker.enhanceNode nodes edges maxDepth n).importanceScore ∧
        (Worker.enhanceNode nodes edges maxDepth n).importanceScore ≤ 15) := by
    rw [hscore]
    constructor
    · intro h
      obtain ⟨h1, h3⟩ := hmed.mp h
      refine ⟨(Worker.score_gt5_iff _).mpr h1, ?_⟩
      by_contra hc
      push_neg at hc
      have h4 := (Worker.score_gt15_iff _).mp hc
      omega
    · rintro ⟨h1, h2⟩
      refine hmed.mpr ⟨(Worker.score_gt5_iff _).mp h1, ?_⟩
      by_contra hc
      push_neg at hc
      have h4 := (Worker.score_gt15_iff _).mpr hc
      linarith
  exact ⟨rfl, Worker.lookup_inDegree nodes edges n.id, Worker.lookup_outDegree nodes edges n.id,
    rfl, hscore, hhigh2, hhigh, hmed2, hmed, hlow⟩

/-! ## C6 — risk accumulation lemmas -/

namespace Impact

open DeadCode (CodeReference GraphEdge GraphData)

theorem directStep_risk (g : GraphData) (acc : Accum) (d : CodeReference) :
    (directStep g acc d).risk = acc.risk + directInc g d := by
  unfold directStep directInc
  dsimp only
  split <;> split <;> simp <;> ring

theorem directFold_risk (g : GraphData) (l : List CodeReference) :
    ∀ acc : Accum, (l.foldl (directStep g) acc).risk =
      l.foldl (fun r d => r + directInc g d) acc.risk := by
  induction l with
  | nil => intro acc; rfl
  | cons d l ih =>
    intro acc
    simp only [List.foldl_cons]
    rw [ih (directStep g acc d), directStep_risk]

theorem indirectStep_risk (acc : Accum) (d : CodeReference) :
    (indirectStep acc d).risk = acc.risk + 1 / 10 := by
  unfold indirectStep
  dsimp only
  split <;> simp

theorem indirectFold_risk (l : List CodeReference) :
    ∀ acc : Accum, (l.foldl indirectStep acc).risk =
      acc.risk + l.length * (1 / 10) := by
  induction l with
  | nil => intro acc; simp
  | cons d l ih =>
    intro acc
    simp only [List.foldl_cons]
    rw [ih (indirectStep acc d), indirectStep_risk]
    push_cast [List.length_cons]
    ring

/-- The accumulated risk, decomposed into the five additive sources of the
source code. -/
theorem impactAccum_risk (t : CodeReference) (g : GraphData) :
    (impactAccum t g).risk =
      (findDependentNodes t g).1.foldl (fun r d => r + directInc g d) 0 +
        ((findDependentNodes t g).2.length : ℚ) * (1 / 10) +
        (if isExportedNode t g then (5 : ℚ) / 10 else 0) +
        (if importCountOf t g > 5 then (2 : ℚ) / 10 else 0) +
        (if (findCircularDependencies t g).length > 0 then (3 : ℚ) / 10 else 0) := by
  unfold impactAccum
  dsimp only
  split <;> split <;> split <;>
    simp_all [directFold_risk, indirectFold_risk]

theorem directInc_nonneg (g : GraphData) (d : CodeReference) : 0 ≤ directInc g d := by
  unfold directInc
  split <;> split <;> norm_num

theorem impactAccum_risk_nonneg (t : CodeReference) (g : GraphData) :
    0 ≤ (impactAccum t g).risk := by
  rw [impactAccum_risk]
  have h1 : (0 : ℚ) ≤ (findDependentNodes t g).1.foldl (fun r d => r + directInc g d) 0 :=
    foldl_add_le (directInc g) (directInc_nonneg g) _ 0
  have h2 : (0 : ℚ) ≤ ((findDependentNodes t g).2.length : ℚ) * (1 / 10) := by positivity
  split <;> split <;> split <;> linarith

end Impact

/-- **C6** (confirmed).  `analyzeNodeImpact` reports risk level `high`
exactly when the accumulated risk after the change-type multiplier but
before the final cap is `≥ 1`, `medium` exactly when it lies in `[0.5, 1)`,
and `low` otherwise; `breakingChangeRisk` is that value clamped to `[0, 1]`.
In particular, delete-impact for an exported node with 12 direct dependents,
at least one of which has more than 10 incident edges, is always `high`. -/
theorem impact_risk_thresholds (t : DeadCode.CodeReference) (g : DeadCode.GraphData)
    (ct : Impact.ChangeType) :
    ((Impact.analyzeNodeImpact t g ct).riskLevel = .high ↔
      1 ≤ Impact.preClampRisk t g ct) ∧
    ((Impact.analyzeNodeImpact t g ct).riskLevel = .medium ↔
      (1 / 2 ≤ Impact.preClampRisk t g ct ∧ Impact.preClampRisk t g ct < 1)) ∧
    ((Impact.analyzeNodeImpact t g ct).riskLevel = .low ↔
      Impact.preClampRisk t g ct < 1 / 2) ∧
    (Impact.analyzeNodeImpact t g ct).breakingChangeRisk =
      max 0 (min (Impact.preClampRisk t g ct) 1) ∧
    (ct = .delete → Impact.isExportedNode t g = true →
      (Impact.findDependentNodes t g).1.length = 12 →
      (∃ d ∈ (Impact.findDependentNodes t g).1, 10 < Impact.connectionCountOf g d.id) →
      (Impact.analyzeNodeImpact t g ct).riskLevel = .high) := by
  have hrisk0 : 0 ≤ (Impact.impactAccum t g).risk := Impact.impactAccum_risk_nonneg t g
  have hmult : 0 < Impact.changeMultiplier ct := by cases ct <;> norm_num [Impact.changeMultiplier]
  have hpre0 : 0 ≤ Impact.preClampRisk t g ct :=
    mul_nonneg hrisk0 (le_of_lt hmult)
  have hRL : (Impact.analyzeNodeImpact t g ct).riskLevel =
      (if 1 ≤ Impact.preClampRisk t g ct then Impact.RiskLevel.high
       else if 1 / 2 ≤ Impact.preClampRisk t g ct then Impact.RiskLevel.medium
       else Impact.RiskLevel.low) := rfl
  have hhigh : (Impact.analyzeNodeImpact t g ct).riskLevel = .high ↔
      1 ≤ Impact.preClampRisk t g ct := by
    rw [hRL]
    split_ifs with h1 h2 <;> simp_all
  refine ⟨hhigh, ?_, ?_, ?_, ?_⟩
  · rw [hRL]
    split_ifs with h1 h2
    · simp only [reduceCtorEq, false_iff, not_and, not_lt]
      intro _
      linarith
    · simp only [true_iff]
      exact ⟨h2, lt_of_not_le h1⟩
    · simp only [reduceCtorEq, false_iff, not_and, not_lt]
      intro hge
      exact absurd hge h2
  · rw [hRL]
    split_ifs with h1 h2
    · simp only [reduceCtorEq, false_iff, not_lt]
      linarith
    · simp only [reduceCtorEq, false_iff, not_lt]
      linarith
    · simp only [true_iff]
      exact lt_of_not_le h2
  · have hbc : (Impact.analyzeNodeImpact t g ct).breakingChangeRisk =
        min (Impact.preClampRisk t g ct) 1 := rfl
    rw [hbc, max_eq_right (le_min hpre0 (by norm_num))]
  · intro hct hexp hlen ⟨d, hd, hconn⟩
    apply hhigh.mpr
    have hinc : (3 : ℚ) / 10 ≤ Impact.directInc g d := by
      unfold Impact.directInc
      rw [if_pos hconn]
      split <;> norm_num
    have hfold : (3 : ℚ) / 10 ≤
        (Impact.findDependentNodes t g).1.foldl (fun r d => r + Impact.directInc g d) 0 := by
      have := foldl_add_elem_le (Impact.directInc g) (Impact.directInc_nonneg g)
        (Impact.findDependentNodes t g).1 d hd 0
      linarith
    have hacc : (8 : ℚ) / 10 ≤ (Impact.impactAccum t g).risk := by
      rw [Impact.impactAccum_risk, if_pos hexp]
      have h2 : (0 : ℚ) ≤ ((Impact.findDependentNodes t g).2.length : ℚ) * (1 / 10) := by
        positivity
      split <;> split <;> linarith
    have : Impact.preClampRisk t g ct = (Impact.impactAccum t g).risk * (3 / 2) := by
      rw [hct]; rfl
    rw [this]
    calc (1 : ℚ) ≤ (8 / 10) * (3 / 2) := by norm_num
      _ ≤ (Impact.impactAccum t g).risk * (3 / 2) := by
          apply mul_le_mul_of_nonneg_right hacc (by norm_num)

/-- Witness for C6: deleting the exported node `T` of the concrete graph
with 12 direct dependents (one of them with 11 incident edges) is rated
`high`. -/
theorem impact_risk_thresholds_witness :
    (Impact.analyzeNodeImpact Examples.exC6target Examples.exC6 .delete).riskLevel =
      .high := by
  exact (impact_risk_thresholds Examples.exC6target Examples.exC6 .delete).2.2.2.2
    rfl (by decide) (by decide) (by decide)

/-- Counterexample for C5 as stated: on the two-module import cycle the
reported `totalIssues` is 3 while the cycle-free sum of the four dead-code
counts is 2; and on a three-module graph with one orphaned module the
reported quality score is the rounded 83 while the claim's un-rounded
formula yields `250/3`. -/
theorem totalIssues_counterexample :
    (DeadCode.analyzeCodeHealth Examples.exC5).totalIssues = 3 ∧
    (DeadCode.detectUnusedFunctions Examples.exC5).length +
      (DeadCode.findUnreachableCode Examples.exC5).length +
      (DeadCode.findOrphanedModules Examples.exC5).length +
      (DeadCode.detectUnusedImports Examples.exC5).length = 2 ∧
    (3 : Nat) ≠ 2 ∧
    ((DeadCode.analyzeCodeHealth Examples.exC5b).codeQualityScore : ℚ) = 83 ∧
    (100 -
      (((DeadCode.detectUnusedFunctions Examples.exC5b).length +
        (DeadCode.findUnreachableCode Examples.exC5b).length +
        (DeadCode.findOrphanedModules Examples.exC5b).length +
        (DeadCode.detectUnusedImports Examples.exC5b).length : Nat) : ℚ) /
        ((Examples.exC5b.nodes.length : ℚ)) * 50 -
      ((DeadCode.detectCyclicDependencies Examples.exC5b).length : ℚ) * 5 -
      max 0 (((DeadCode.analyzeCodeHealth Examples.exC5b).complexityScore : ℚ) - 50) *
        (1 / 2)) = 250 / 3 ∧
    (83 : ℚ) ≠ 250 / 3 := by
  have h1 : (DeadCode.detectUnusedFunctions Examples.exC5b).length = 0 := by decide
  have h2 : (DeadCode.findUnreachableCode Examples.exC5b).length = 0 := by decide
  have h3 : (DeadCode.findOrphanedModules Examples.exC5b).length = 1 := by decide
  have h4 : (DeadCode.detectUnusedImports Examples.exC5b).length = 0 := by decide
  have h5 : (DeadCode.detectCyclicDependencies Examples.exC5b).length = 0 := by decide
  have h8 : Examples.exC5b.nodes.length = 3 := by decide
  have hc : DeadCode.calculateComplexityScore Examples.exC5b = 7 := by
    unfold DeadCode.calculateComplexityScore
    rw [h8, show Examples.exC5b.edges.length = 2 from by decide]
    norm_num [jsRound]
  have h6 : (DeadCode.analyzeCodeHealth Examples.exC5b).complexityScore = 7 := by
    rw [show (DeadCode.analyzeCodeHealth Examples.exC5b).complexityScore =
      DeadCode.calculateComplexityScore Examples.exC5b from rfl, hc]
  have htot : (DeadCode.analyzeCodeHealth Examples.exC5b).totalIssues = 1 := by decide
  have h7 : (DeadCode.analyzeCodeHealth Examples.exC5b).codeQualityScore = 83 := by
    rw [show (DeadCode.analyzeCodeHealth Examples.exC5b).codeQualityScore =
      DeadCode.calculateCodeQualityScore Examples.exC5b.nodes.length
        (DeadCode.analyzeCodeHealth Examples.exC5b).totalIssues
        (DeadCode.detectCyclicDependencies Examples.exC5b).length
        (DeadCode.calculateComplexityScore Examples.exC5b) from rfl, h8, htot, h5, hc]
    unfold DeadCode.calculateCodeQualityScore
    rw [if_neg (by norm_num)]
    rw [show max (0 : ℚ) (((7 : ℤ) : ℚ) - 50) = 0 from by norm_num]
    norm_num [jsRound]
  refine ⟨by decide, by decide, by decide, ?_, ?_, by norm_num⟩
  · rw [h7]; norm_num
  · rw [h1, h2, h3, h4, h5, h6, h8]
    rw [show max (0 : ℚ) (((7 : ℤ) : ℚ) - 50) = 0 from by norm_num]
    norm_num
